import Mathlib

/-!
Verification of the enrichment/classification orchestration pipeline of the
`lifely` repository (`src/lifely/llm_enrich.py`, with collaborators in
`src/lifely/models.py` and `src/lifely/places.py`).

The Python source is shallowly embedded: pure functions become Lean
functions, the stateful pipeline phases become explicit state-passing folds,
and the external collaborators (the LLM resolver, the Places/geocoding
service) become oracle function parameters.  Python `str` operations are
re-implemented over `List Char` so that all definitions evaluate inside the
kernel; Python `float` values are modelled as `ℚ` (the program performs no
floating-point rounding-sensitive arithmetic beyond `round(_, 1)`, which is
modelled exactly as round-half-even).  Python dictionaries are modelled as
insertion-ordered association lists, matching CPython's documented
insertion-order iteration semantics.
-/

namespace Lifely

/-! ### Python string primitives

Python `str.strip`, `str.lower`, slicing, `str.split`, `in` (substring) and
`str.startswith`, re-implemented over the character list of a `String` so
that they reduce in the kernel.  `pyIsSpace` is the ASCII part of Python's
default strip set.
-/

def pyIsSpace (c : Char) : Bool :=
  c = ' ' || c = '\t' || c = '\n' || c = '\x0d' || c = '\x0b' || c = '\x0c'

/-- Python `s.strip()` (ASCII whitespace). -/
def pyStrip (s : String) : String :=
  ⟨((s.data.dropWhile pyIsSpace).reverse.dropWhile pyIsSpace).reverse⟩

/-- Python `s.lower()` (ASCII case mapping). -/
def pyLower (s : String) : String :=
  ⟨s.data.map Char.toLower⟩

/-- Python `s[:n]` (slicing by code points). -/
def pyTakeChars (n : Nat) (s : String) : String :=
  ⟨s.data.take n⟩

/-- Worker for `pySplit`; the fuel argument is an upper bound on the number
of characters still to be consumed, making the recursion structural. -/
def pySplitGo (sep : List Char) : Nat → List Char → List Char → List (List Char)
  | 0, acc, rest => [acc.reverse ++ rest]
  | _fuel+1, acc, [] => [acc.reverse]
  | fuel+1, acc, c :: t =>
    if sep.isPrefixOf (c :: t) then
      acc.reverse :: pySplitGo sep fuel [] ((c :: t).drop sep.length)
    else
      pySplitGo sep fuel (c :: acc) t

/-- Python `s.split(sep)` for a non-empty separator. -/
def pySplit (s sep : String) : List String :=
  (pySplitGo sep.data (s.data.length + 1) [] s.data).map (fun l => ⟨l⟩)

/-- Python `needle in hay` (substring containment). -/
def strInB (needle hay : String) : Bool :=
  go needle.data hay.data
where
  go (n : List Char) : List Char → Bool
    | [] => n.isEmpty
    | c :: t => n.isPrefixOf (c :: t) || go n t

/-- Python `s.startswith(p)`. -/
def pyStartsWith (s p : String) : Bool :=
  p.data.isPrefixOf s.data

/-- Truthiness of an optional string (Python: `None` and `""` are falsy). -/
def truthyS : Option String → Bool
  | none => false
  | some s => s ≠ ""

/-- Python `a or b` on optional strings. -/
def pyOrS (a b : Option String) : Option String :=
  if truthyS a then a else b

/-- Python `round(q, 1)`: round to one decimal place, ties to even
(banker's rounding, as Python's `round` does). -/
def pyRound1 (q : ℚ) : ℚ :=
  let y := q * 10
  let n : ℤ :=
    if Int.fract y < 1 / 2 then ⌊y⌋
    else if 1 / 2 < Int.fract y then ⌊y⌋ + 1
    else if ⌊y⌋ % 2 = 0 then ⌊y⌋ else ⌊y⌋ + 1
  (n : ℚ) / 10

/-! ### Data model (`src/lifely/models.py`) -/

/-- `NormalizedEvent`, restricted to the fields the enrichment/classification
pipeline reads.  `date` holds `start.strftime("%Y-%m-%d")` precomputed (the
pipeline only ever formats the start time this one way). -/
structure NormalizedEvent where
  id : String
  summary : Option String
  location_raw : Option String
  date : String
  duration_minutes : ℚ
deriving DecidableEq

/-- `LocationEnrichment`: resolved location details for an event. -/
structure LocationEnrichment where
  event_id : String := ""
  venue_name : Option String := none
  neighborhood : Option String := none
  city : Option String := none
  cuisine : Option String := none
  latitude : Option ℚ := none
  longitude : Option ℚ := none
deriving DecidableEq

/-- `FriendEvent`. -/
structure FriendEvent where
  id : String
  summary : Option String
  date : Option String
  hours : ℚ
  location_raw : Option String := none
  venue_name : Option String := none
  neighborhood : Option String := none
  cuisine : Option String := none
deriving DecidableEq

/-- `FriendStats` (email-identified friend). -/
structure FriendStats where
  email : String
  display_name : Option String
  event_count : Nat
  total_hours : ℚ
  events : List FriendEvent := []
deriving DecidableEq

/-- `InferredFriend`.  The Python dataclass declares `name : str`, but the
aggregator builds it from a dictionary slot initialised to `None`; the model
keeps the `Option` so that the stored runtime value is represented exactly. -/
structure InferredFriend where
  name : Option String
  normalized_name : String
  event_count : Nat
  total_hours : ℚ
  events : List FriendEvent := []
  linked_email : Option String := none
deriving DecidableEq

/-- `ActivityEvent`. -/
structure ActivityEvent where
  id : String
  summary : Option String
  date : Option String
  hours : ℚ
  category : String
  activity_type : String
  venue_name : Option String := none
  neighborhood : Option String := none
deriving DecidableEq

/-- `ActivityCategoryStats`. -/
structure ActivityCategoryStats where
  category : String
  event_count : Nat
  total_hours : ℚ
  top_venues : List (String × Nat)
  top_activities : List (String × Nat)
deriving DecidableEq

/-- `MergeSuggestion`. -/
structure MergeSuggestion where
  inferred_name : Option String
  suggested_email : String
  confidence : String
  reason : String
deriving DecidableEq

/-- Python `f"{x}"` for an optional string (`None` renders as `"None"`). -/
def optStr : Option String → String
  | none => "None"
  | some s => s

/-! ### `suggest_merges` (`llm_enrich.py:533-557`) -/

/-- `ef.email.split("@")[0].lower()` — the lower-cased local part. -/
def emailLocalOf (ef : FriendStats) : String :=
  pyLower ((pySplit ef.email "@").headD "")

/-- The pair-matching test: the normalized inferred name appears in the
email local part, or vice versa. -/
def nameMatches (inf : InferredFriend) (ef : FriendStats) : Bool :=
  strInB inf.normalized_name (emailLocalOf ef) ||
    strInB (emailLocalOf ef) inf.normalized_name

/-- `display_match = ef.display_name and inf.normalized_name in
ef.display_name.lower()` (truthiness of the stored display name, then
substring containment of the normalized name). -/
def displayMatch (inf : InferredFriend) (ef : FriendStats) : Bool :=
  match ef.display_name with
  | none => false
  | some d => d ≠ "" && strInB inf.normalized_name (pyLower d)

/-- The suggestion record built for a matching pair. -/
def mkSuggestion (inf : InferredFriend) (ef : FriendStats) : MergeSuggestion :=
  { inferred_name := inf.name
    suggested_email := ef.email
    confidence := if displayMatch inf ef then "high" else "medium"
    reason := "\u0027" ++ optStr inf.name ++ "\u0027 matches email prefix \u0027"
      ++ emailLocalOf ef ++ "\u0027" }

/-- `suggest_merges`: for every (inferred, email friend) pair whose names
match, emit one suggestion, in the nested iteration order of the source. -/
def suggest_merges (inferred : List InferredFriend) (email_friends : List FriendStats) :
    List MergeSuggestion :=
  inferred.flatMap fun inf =>
    email_friends.filterMap fun ef =>
      if nameMatches inf ef then some (mkSuggestion inf ef) else none

/-! ### Batch call with retry (`_call_openai_batch`, `llm_enrich.py:619-671`)

The outbound network call is an oracle `call : Nat → CallRes` giving the
outcome of each attempt (indexed from 0).  `json.loads` composed with the
`parse_fn` is an oracle `parse : String → ParseRes α` with three outcomes:
a parsed result list; a `json.JSONDecodeError`/`KeyError`, which the inner
handler soft-fails to `[]` (`llm_enrich.py:651-655`); or any other
exception raised by `parse_fn` — e.g. `AttributeError`/`TypeError` on
valid JSON of an unexpected shape — which escapes the inner `try` and
reaches the generic attempt handler (`llm_enrich.py:657-667`) exactly like
a failed API call. -/

/-- Outcome of one attempted call: the response text, or a raised error
(identified by its `str(e)` rendering, which is all the source inspects). -/
inductive CallRes where
  | success (content : String)
  | failure (err : String)
deriving DecidableEq

/-- `"429" in error_str or "rate_limit" in error_str or "timeout" in
error_str or "timed out" in error_str` on the lower-cased error text — the
transient (retry-worthy) classification. -/
def isTransientErr (err : String) : Bool :=
  let es := pyLower err
  (strInB "429" es || strInB "rate_limit" es) ||
    (strInB "timeout" es || strInB "timed out" es)

/-- Outcome of `json.loads` composed with `parse_fn` on the stripped
response text: a result list; a `JSONDecodeError`/`KeyError` (soft-failed
to `[]` by the inner handler); or any other exception, identified by its
`str(e)` rendering, which is all the outer handler inspects. -/
inductive ParseRes (α : Type) where
  | ok (results : List α)
  | softErr
  | exn (msg : String)
deriving DecidableEq

/-- Fenced-code-block stripping applied to the response before parsing. -/
def stripFence (content : String) : String :=
  if strInB "```json" content then
    pyStrip ((pySplit ((pySplit content "```json").getD 1 "") "```").headD "")
  else if strInB "```" content then
    pyStrip ((pySplit ((pySplit content "```").getD 1 "") "```").headD "")
  else content

/-- Observable outcome of `_call_openai_batch`: the backoff sleeps performed
(in seconds, in order), the number of attempts made, and either the parsed
result list or the re-raised error. -/
structure BatchOutcome (α : Type) where
  sleeps : List Nat
  attempts : Nat
  result : Except String (List α)

/-- The retry loop of `_call_openai_batch`, structurally recursive on the
remaining attempts (`fuel`), tracking the current attempt index and the last
transient error. -/
def runBatchAux (call : Nat → CallRes) (parse : String → ParseRes α) :
    Nat → Nat → Option String → BatchOutcome α
  | 0, _, lastErr =>
    { sleeps := [], attempts := 0,
      result := match lastErr with
        | some e => Except.error e
        | none => Except.ok [] }
  | fuel+1, attempt, _lastErr =>
    match call attempt with
    | CallRes.success content =>
      if content = "" then { sleeps := [], attempts := 1, result := Except.ok [] }
      else
        match parse (stripFence content) with
        | ParseRes.ok rs => { sleeps := [], attempts := 1, result := Except.ok rs }
        | ParseRes.softErr =>
          { sleeps := [], attempts := 1, result := Except.ok [] }
        | ParseRes.exn msg =>
          if isTransientErr msg then
            let rest := runBatchAux call parse fuel (attempt + 1) (some msg)
            { sleeps := 5 * 2 ^ attempt :: rest.sleeps,
              attempts := rest.attempts + 1,
              result := rest.result }
          else { sleeps := [], attempts := 1, result := Except.error msg }
    | CallRes.failure err =>
      if isTransientErr err then
        let rest := runBatchAux call parse fuel (attempt + 1) (some err)
        { sleeps := 5 * 2 ^ attempt :: rest.sleeps,
          attempts := rest.attempts + 1,
          result := rest.result }
      else { sleeps := [], attempts := 1, result := Except.error err }

/-- `_call_openai_batch` with its default `max_retries = 5`. -/
def callBatch (call : Nat → CallRes) (parse : String → ParseRes α) :
    BatchOutcome α :=
  runBatchAux call parse 5 0 none

/-- `events[i : i + BATCH_SIZE]` chunking (worker with fuel = list length,
which bounds the number of nonempty chunks). -/
def chunksGo (n : Nat) : Nat → List β → List (List β)
  | 0, _ => []
  | _, [] => []
  | fuel+1, l@(_ :: _) => l.take n :: chunksGo n fuel (l.drop n)

/-- The batch partition of `_call_openai_parallel` (batch size ≥ 1; the
source's `BATCH_SIZE` is parsed from the environment with default 30). -/
def chunks (n : Nat) (l : List β) : List (List β) :=
  if n = 0 then [] else chunksGo n l.length l

/-- Sequential fold over the batch outcomes.  `asyncio.gather` surfaces a
raised error and otherwise returns all batch results in batch order; when no
batch raises (the only case the claims below rely on), the time-ordering
nondeterminism of which error surfaces is immaterial. -/
def gatherBatches (call : Nat → Nat → CallRes) (parse : String → ParseRes α) :
    Nat → List (List β) → Except String (List α)
  | _, [] => Except.ok []
  | i, _ :: t =>
    match (callBatch (call i) parse).result with
    | Except.error e => Except.error e
    | Except.ok rs =>
      match gatherBatches call parse (i + 1) t with
      | Except.error e => Except.error e
      | Except.ok rest => Except.ok (rs ++ rest)

/-- `_call_openai_parallel`: empty input short-circuits to `[]` without any
call; otherwise the input is chunked and every batch is dispatched, each
batch's responses given by the oracle `call b a` (batch `b`, attempt `a`). -/
def callOpenaiParallel (call : Nat → Nat → CallRes)
    (parse : String → ParseRes α) (batchSize : Nat) (events : List β) :
    Except String (List α) :=
  match events with
  | [] => Except.ok []
  | _ :: _ => gatherBatches call parse 0 (chunks batchSize events)

/-! ### Insertion-ordered dictionaries

CPython dictionaries preserve insertion order; overwriting a key keeps its
position, and new keys are appended.  `lookupA`/`setA` model `d.get(k)` /
`d[k] = v`; `pushAt` models `d.setdefault(k, []).append(x)`; `setdefaultA`
models `d.setdefault(k, v)`; `addSet` models set insertion (with the model
fixing insertion order for the source's `set` iteration, which CPython
leaves unspecified — no claim below depends on that order). -/

def lookupA (l : List (String × α)) (k : String) : Option α :=
  match l with
  | [] => none
  | (k1, v) :: t => if k1 = k then some v else lookupA t k

def setA (l : List (String × α)) (k : String) (v : α) : List (String × α) :=
  match l with
  | [] => [(k, v)]
  | (k1, v1) :: t => if k1 = k then (k1, v) :: t else (k1, v1) :: setA t k v

def pushAt (l : List (String × List α)) (k : String) (x : α) :
    List (String × List α) :=
  match l with
  | [] => [(k, [x])]
  | (k1, xs) :: t => if k1 = k then (k1, xs ++ [x]) :: t else (k1, xs) :: pushAt t k x

def setdefaultA (l : List (String × α)) (k : String) (v : α) : List (String × α) :=
  match lookupA l k with
  | some _ => l
  | none => l ++ [(k, v)]

def addSet (l : List String) (k : String) : List String :=
  if l.contains k then l else l ++ [k]

/-! ### Prompt-payload trimming (`llm_enrich.py:110-124`) -/

/-- `_shorten_text` (default `max_len = 180`). -/
def shorten_text : Option String → String
  | none => ""
  | some s => if s = "" then "" else pyTakeChars 180 (pyStrip s)

/-- `_shorten_location` (default `max_len = 160`): strip, drop a URL query
string, truncate. -/
def shorten_location : Option String → String
  | none => ""
  | some s =>
    if s = "" then ""
    else
      let trimmed := pyStrip s
      let trimmed :=
        if pyStartsWith trimmed "http" then (pySplit trimmed "?").headD ""
        else trimmed
      pyTakeChars 160 trimmed

/-! ### Classification pipeline (`classify_solo_events`, `llm_enrich.py:292-414`)

The LLM classifier is an oracle `cls : List ClsPromptItem → List ClsOut`.
The model covers key extraction, the classification cache, the
uncached-summary prompt list, the result merge and the same-summary
propagation; aggregation is modelled separately below. -/

/-- `event_payload` as built at `llm_enrich.py:316-322`. -/
structure ClsPayload where
  event_id : String
  summary : String
  date : String
  hours : ℚ
  location_raw : Option String
deriving DecidableEq

/-- The per-summary prompt item (`llm_enrich.py:328-335`); the
`location_hint` key is present only when the shortened location is truthy. -/
structure ClsPromptItem where
  event_id : String
  summary : String
  location_hint : Option String
deriving DecidableEq

/-- A cached classification payload: the LLM result minus its `event_id`
(`llm_enrich.py:370`).  The model assumes cached payloads are non-empty
objects, so that dict-truthiness coincides with key presence. -/
structure ClsCore where
  type : Option String
  names : List String := []
  category : Option String := none
  activity_type : Option String := none
  venue : Option String := none
deriving DecidableEq

/-- One structured result returned by the classification call. -/
structure ClsOut where
  event_id : String
  type : Option String
  names : List String := []
  category : Option String := none
  activity_type : Option String := none
  venue : Option String := none
deriving DecidableEq

/-- The classification payload stored in `classification_by_id`. -/
structure ClsFull where
  event_id : String
  type : Option String
  names : List String := []
  category : Option String := none
  activity_type : Option String := none
  venue : Option String := none
  summary : Option String := none
  date : Option String := none
  hours : Option ℚ := none
  location_raw : Option String := none
deriving DecidableEq

def ClsOut.core (c : ClsOut) : ClsCore :=
  { type := c.type, names := c.names, category := c.category,
    activity_type := c.activity_type, venue := c.venue }

def clsFullOfCore (event_id : String) (c : ClsCore) (summary date : Option String)
    (hours : Option ℚ) (location_raw : Option String) : ClsFull :=
  { event_id := event_id, type := c.type, names := c.names, category := c.category,
    activity_type := c.activity_type, venue := c.venue,
    summary := summary, date := date, hours := hours, location_raw := location_raw }

/-- The mutable maps built by the first pass of `classify_solo_events`. -/
structure ClsState where
  summary_to_events : List (String × List ClsPayload)
  classification_by_id : List (String × ClsFull)
  summary_for_event : List (String × String)
  event_meta_by_id : List (String × ClsPayload)
  prompt_event_by_summary : List (String × ClsPromptItem)
deriving DecidableEq

def initClsState : ClsState :=
  { summary_to_events := [], classification_by_id := [], summary_for_event := [],
    event_meta_by_id := [], prompt_event_by_summary := [] }

/-- One iteration of the first event loop (`llm_enrich.py:313-346`). -/
def clsStep (ccache : List (String × ClsCore)) (st : ClsState)
    (e : NormalizedEvent) : ClsState :=
  match e.summary with
  | none => st
  | some s =>
    if s = "" then st
    else
      let payload : ClsPayload :=
        { event_id := e.id, summary := s, date := e.date,
          hours := pyRound1 (e.duration_minutes / 60), location_raw := e.location_raw }
      let summaryKey := pyStrip (pyLower s)
      let locationHint := shorten_location e.location_raw
      let promptItem : ClsPromptItem :=
        { event_id := e.id, summary := shorten_text e.summary,
          location_hint := if locationHint = "" then none else some locationHint }
      let st :=
        { st with
          summary_to_events := pushAt st.summary_to_events summaryKey payload
          summary_for_event := setA st.summary_for_event e.id summaryKey
          event_meta_by_id := setA st.event_meta_by_id e.id payload
          prompt_event_by_summary :=
            setdefaultA st.prompt_event_by_summary summaryKey promptItem }
      match lookupA ccache summaryKey with
      | some c =>
        { st with
          classification_by_id := setA st.classification_by_id e.id
            (clsFullOfCore e.id c (some s) (some e.date) (some payload.hours)
              e.location_raw) }
      | none => st

/-- The uncached-summary prompt list (`llm_enrich.py:349-353`). -/
def buildToSend (ccache : List (String × ClsCore)) (st : ClsState) :
    List ClsPromptItem :=
  st.summary_to_events.foldl
    (fun acc kv =>
      if (lookupA ccache kv.1).isSome then acc
      else
        match lookupA st.prompt_event_by_summary kv.1 with
        | some it => acc ++ [it]
        | none => acc)
    []

/-- Merging one LLM classification result (`llm_enrich.py:365-380`). -/
def clsMergeStep (acc : ClsState × List (String × ClsCore)) (c : ClsOut) :
    ClsState × List (String × ClsCore) :=
  let (st, ccache) := acc
  match lookupA st.summary_for_event c.event_id with
  | none => (st, ccache)
  | some summaryKey =>
    if summaryKey = "" then (st, ccache)
    else
      let ccache := setA ccache summaryKey c.core
      let full :=
        match lookupA st.event_meta_by_id c.event_id with
        | some m =>
          clsFullOfCore c.event_id c.core (some m.summary) (some m.date)
            (some m.hours) m.location_raw
        | none => clsFullOfCore c.event_id c.core none none none none
      ({ st with classification_by_id := setA st.classification_by_id c.event_id full },
        ccache)

/-- Propagating cached classifications to same-summary events
(`llm_enrich.py:383-397`). -/
def clsPropagate (ccache : List (String × ClsCore)) (st : ClsState) : ClsState :=
  st.summary_to_events.foldl
    (fun st kv =>
      match lookupA ccache kv.1 with
      | none => st
      | some c =>
        kv.2.foldl
          (fun st ev =>
            if (lookupA st.classification_by_id ev.event_id).isSome then st
            else
              { st with
                classification_by_id := setA st.classification_by_id ev.event_id
                  (clsFullOfCore ev.event_id c (some ev.summary) (some ev.date)
                    (some ev.hours) ev.location_raw) })
          st)
    st

/-- Result of the classification pipeline up to (and including) cache merge
and propagation. -/
structure ClsRunOut where
  state : ClsState
  cache : List (String × ClsCore)
  toSend : List ClsPromptItem
deriving DecidableEq

/-- `classify_solo_events` (key extraction through propagation): when no
uncached summary remains, the LLM is not called and the merge/propagation
block is skipped entirely (`llm_enrich.py:355`). -/
def classifyRun (ccache0 : List (String × ClsCore))
    (cls : List ClsPromptItem → List ClsOut) (events : List NormalizedEvent) :
    ClsRunOut :=
  let st1 := events.foldl (clsStep ccache0) initClsState
  let toSend := buildToSend ccache0 st1
  match toSend with
  | [] => { state := st1, cache := ccache0, toSend := [] }
  | _ :: _ =>
    let results := cls toSend
    let merged := results.foldl clsMergeStep (st1, ccache0)
    { state := clsPropagate merged.2 merged.1, cache := merged.2, toSend := toSend }

/-! ### `_aggregate_inferred_friends` (`llm_enrich.py:417-474`) -/

/-- The per-name accumulator slot of the aggregation dictionary. -/
structure AggSlot where
  display_name : Option String := none
  events : List FriendEvent := []
  total_hours : ℚ := 0
deriving DecidableEq

/-- The descending `(event_count, total_hours)` ordering used by the final
`friends.sort(..., reverse=True)`: `a` may stay before `b` exactly when its
key is at least `b`'s. -/
def friendBefore (a b : InferredFriend) : Prop :=
  b.event_count < a.event_count ∨
    (a.event_count = b.event_count ∧ b.total_hours ≤ a.total_hours)

instance : DecidableRel friendBefore := fun a b => by
  unfold friendBefore
  infer_instance

instance : IsTotal InferredFriend friendBefore := by
  constructor
  intro a b
  rcases Nat.lt_trichotomy a.event_count b.event_count with h | h | h
  · exact Or.inr (Or.inl h)
  · rcases le_total b.total_hours a.total_hours with h2 | h2
    · exact Or.inl (Or.inr ⟨h, h2⟩)
    · exact Or.inr (Or.inr ⟨h.symm, h2⟩)
  · exact Or.inl (Or.inl h)

instance : IsTrans InferredFriend friendBefore := by
  constructor
  intro a b c hab hbc
  rcases hab with h1 | ⟨h1, h1q⟩ <;> rcases hbc with h2 | ⟨h2, h2q⟩
  · exact Or.inl (h2.trans h1)
  · exact Or.inl (h2 ▸ h1)
  · exact Or.inl (h1 ▸ h2)
  · exact Or.inr ⟨h1.trans h2 ▸ h1.trans h2 ▸ rfl, h2q.trans h1q⟩

/-- `_aggregate_inferred_friends`: group SOCIAL events by the
stripped-and-lowered person name, accumulate hours and events, keep the
first-seen stripped raw name as the display name, and sort by
`(event_count, total_hours)` descending (Python's sort is stable;
`List.insertionSort` is the standard stable sort). -/
def aggregate_inferred_friends (event_ids : List String)
    (classification_by_id : List (String × ClsFull))
    (enrichment_lookup : Option (List (String × LocationEnrichment))) :
    List InferredFriend :=
  let by_name :=
    event_ids.foldl
      (fun (byn : List (String × AggSlot)) event_id =>
        match lookupA classification_by_id event_id with
        | none => byn
        | some c =>
          if c.type ≠ some "SOCIAL" then byn
          else if c.names = [] then byn
          else
            let enr :=
              match enrichment_lookup with
              | none => none
              | some el => lookupA el event_id
            c.names.foldl
              (fun byn name =>
                if name = "" then byn
                else
                  let key := pyLower (pyStrip name)
                  let hours := c.hours.getD 0
                  let slot := (lookupA byn key).getD {}
                  let slot :=
                    { slot with
                      total_hours := slot.total_hours + hours
                      events := slot.events ++
                        [{ id := event_id, summary := c.summary, date := c.date,
                           hours := hours, location_raw := c.location_raw,
                           venue_name := (enr.map LocationEnrichment.venue_name).getD none,
                           neighborhood :=
                             (enr.map LocationEnrichment.neighborhood).getD none,
                           cuisine := (enr.map LocationEnrichment.cuisine).getD none }] }
                  let slot :=
                    if slot.display_name = none then
                      { slot with display_name := some (pyStrip name) }
                    else slot
                  setA byn key slot)
              byn)
      []
  let friends :=
    by_name.map fun kv =>
      { name := kv.2.display_name, normalized_name := kv.1,
        event_count := kv.2.events.length,
        total_hours := pyRound1 kv.2.total_hours,
        events := kv.2.events : InferredFriend }
  List.insertionSort friendBefore friends

/-! ### Location enrichment pipeline (`enrich_all_events`, `llm_enrich.py:127-289`)

Oracles: `geoNet` is the Places/geocoding network lookup
(`places._find_place` + `_get_place_details`, collapsed to the
`LocationEnrichment`-shaped record it yields, `none` when nothing resolves);
`pc0` is the persisted places cache; `llm` is the batched LLM location
resolver; `gk` says whether `GOOGLE_MAPS_API_KEY` is configured.  The model
additionally records the prompt items sent (`unique_events`), the number of
geocoder network calls (`geoCalls`) and the ordered log of cache
assignments (`writes`). -/

/-- A record of the `locations_by_location` cache (six fields, as written by
`_cache_from_enrichment`).  The model assumes cache values are such records,
so that dict truthiness coincides with key presence. -/
structure CacheRec where
  venue_name : Option String := none
  neighborhood : Option String := none
  city : Option String := none
  cuisine : Option String := none
  latitude : Option ℚ := none
  longitude : Option ℚ := none
deriving DecidableEq

/-- One `unique_events` prompt item (`llm_enrich.py:191-197`). -/
structure PromptItem where
  event_id : String
  summary : String
  location : String
deriving DecidableEq

/-- `_cache_from_enrichment`. -/
def cache_from_enrichment (e : LocationEnrichment) : CacheRec :=
  { venue_name := e.venue_name, neighborhood := e.neighborhood, city := e.city,
    cuisine := e.cuisine, latitude := e.latitude, longitude := e.longitude }

/-- `_location_enrichment_from_cache`. -/
def location_enrichment_from_cache (event_id : String) (c : CacheRec) :
    LocationEnrichment :=
  { event_id := event_id, venue_name := c.venue_name, neighborhood := c.neighborhood,
    city := c.city, cuisine := c.cuisine, latitude := c.latitude,
    longitude := c.longitude }

/-- `urlparse(s).netloc` for scheme-style inputs: the segment between the
first `//` and the next `/` (empty when no `//` occurs, as for plain
address strings). -/
def netloc (s : String) : String :=
  if strInB "//" s then ((pySplit ((pySplit s "//").getD 1 "") "/").headD "")
  else ""

/-- `places.looks_like_maps_url`. -/
def looks_like_maps_url (location : String) : Bool :=
  let host := pyLower (netloc location)
  ["maps.google.com", "google.com/maps", "goo.gl/maps", "maps.app.goo.gl"].any
    fun key => strInB key host

/-- The deterministic outcome of `resolve_place_from_location_string` for a
given location: the persisted places cache wins, then the network. -/
def geoRes (pc0 : List (String × CacheRec)) (geoNet : String → Option CacheRec)
    (loc : String) : Option CacheRec :=
  match lookupA pc0 loc with
  | some r => some r
  | none => geoNet loc

/-- `resolve_place_from_location_string` with its observable side effects: a
cache hit answers without a network call; a miss costs one network call and
a successful resolution is added to the places cache. -/
def resolvePlaceStep (pc0 : List (String × CacheRec))
    (geoNet : String → Option CacheRec) (pcKeys : List String) (calls : Nat)
    (loc : String) : Option CacheRec × List String × Nat :=
  if pcKeys.contains loc then (geoRes pc0 geoNet loc, pcKeys, calls)
  else
    match geoNet loc with
    | none => (none, pcKeys, calls + 1)
    | some r => (some r, pcKeys ++ [loc], calls + 1)

/-- The mutable state of `enrich_all_events`. -/
structure EnrichState where
  lookup : List (String × LocationEnrichment)
  cache : List (String × CacheRec)
  seen_locations : List (String × List String)
  event_location_lookup : List (String × String)
  geocode_targets : List String
  unique_events : List PromptItem
  pcKeys : List String
  geoCalls : Nat
  writes : List (String × CacheRec)
deriving DecidableEq

/-- A cache assignment `location_cache[loc] = rec`, also recorded in the
write log. -/
def cacheWrite (st : EnrichState) (k : String) (r : CacheRec) : EnrichState :=
  { st with cache := setA st.cache k r, writes := st.writes ++ [(k, r)] }

def initEnrichState (cache0 pc0 : List (String × CacheRec)) : EnrichState :=
  { lookup := [], cache := cache0, seen_locations := [],
    event_location_lookup := [], geocode_targets := [], unique_events := [],
    pcKeys := pc0.map Prod.fst, geoCalls := 0, writes := [] }

/-- The representative prompt item built for the first event of an uncached
location (`llm_enrich.py:191-197`). -/
def mkPromptItem (e : NormalizedEvent) (loc : String) : PromptItem :=
  { event_id := e.id, summary := shorten_text e.summary,
    location := shorten_location (some loc) }

/-- The tail of the miss path (`llm_enrich.py:186-197`): add the location to
the geocode targets when a maps key is configured, and queue a
representative prompt item when this is the location's first occurrence. -/
def enrichQueue (gk : Bool) (st : EnrichState) (e : NormalizedEvent)
    (loc : String) : EnrichState :=
  let st :=
    if gk then { st with geocode_targets := addSet st.geocode_targets loc }
    else st
  if ((lookupA st.seen_locations loc).getD []).length = 1 then
    { st with unique_events := st.unique_events ++ [mkPromptItem e loc] }
  else st

/-- One iteration of the dedup/cache/bypass loop (`llm_enrich.py:158-197`).
A failed Places bypass falls through to `enrichQueue`, exactly as the
source's failed `resolve_place_from_location_string` falls through past the
`if resolved:` block. -/
def enrichStep (gk : Bool) (pc0 : List (String × CacheRec))
    (geoNet : String → Option CacheRec) (st : EnrichState)
    (e : NormalizedEvent) : EnrichState :=
  match e.location_raw with
  | none => st
  | some raw =>
    if raw = "" then st
    else
      let loc := pyStrip raw
      if loc = "" then st
      else
        let st :=
          { st with
            seen_locations := pushAt st.seen_locations loc e.id
            event_location_lookup := setA st.event_location_lookup e.id loc }
        match lookupA st.cache loc with
        | some cached =>
          let st :=
            { st with
              lookup := setA st.lookup e.id
                (location_enrichment_from_cache e.id cached) }
          if gk && (cached.latitude = none || cached.longitude = none) then
            { st with geocode_targets := addSet st.geocode_targets loc }
          else st
        | none =>
          if gk && looks_like_maps_url loc then
            let rpc := resolvePlaceStep pc0 geoNet st.pcKeys st.geoCalls loc
            let st := { st with pcKeys := rpc.2.1, geoCalls := rpc.2.2 }
            match rpc.1 with
            | some r =>
              cacheWrite
                { st with
                  lookup := setA st.lookup e.id
                    (location_enrichment_from_cache e.id r) }
                loc r
            | none => enrichQueue gk st e loc
          else enrichQueue gk st e loc

/-- Merging one LLM result into the lookup and the cache
(`llm_enrich.py:211-215`). -/
def enrichMergeStep (st : EnrichState) (r : LocationEnrichment) : EnrichState :=
  let st := { st with lookup := setA st.lookup r.event_id r }
  match lookupA st.event_location_lookup r.event_id with
  | none => st
  | some loc =>
    if loc = "" then st else cacheWrite st loc (cache_from_enrichment r)

/-- Propagating one representative's enrichment to the events sharing its
prompt item's (shortened) location (`llm_enrich.py:218-233`). -/
def propagateItem (st : EnrichState) (item : PromptItem) : EnrichState :=
  ((lookupA st.seen_locations item.location).getD []).foldl
    (fun st eid =>
      if (lookupA st.lookup eid).isSome then st
      else
        match lookupA st.lookup item.event_id with
        | none => st
        | some template =>
          { st with lookup := setA st.lookup eid { template with event_id := eid } })
    st

/-- The meeting-link keyword filter of the geocode backfill
(`llm_enrich.py:244`). -/
def geocodeBad (low : String) : Bool :=
  strInB "zoom" low || strInB "google meet" low || strInB "meet link" low ||
    strInB "see attached" low

/-- The in-place patch applied to an existing enrichment by the geocode
backfill (`llm_enrich.py:266-275`). -/
def patchEnr (r : CacheRec) (enr : LocationEnrichment) : LocationEnrichment :=
  let enr :=
    if enr.latitude = none then
      { enr with latitude := r.latitude, longitude := r.longitude }
    else enr
  let enr :=
    if !truthyS enr.neighborhood && truthyS r.neighborhood then
      { enr with neighborhood := r.neighborhood }
    else enr
  let enr :=
    if !truthyS enr.city && truthyS r.city then { enr with city := r.city }
    else enr
  if !truthyS enr.cuisine && truthyS r.cuisine then
    { enr with cuisine := r.cuisine }
  else enr

/-- The cache merge applied by the geocode backfill
(`llm_enrich.py:251-260`): populated non-coordinate fields are kept,
coordinates are replaced by the newly resolved values. -/
def mergeCacheRec (cached r : CacheRec) : CacheRec :=
  { venue_name := pyOrS cached.venue_name r.venue_name
    neighborhood := pyOrS cached.neighborhood r.neighborhood
    city := pyOrS cached.city r.city
    cuisine := pyOrS cached.cuisine r.cuisine
    latitude := r.latitude
    longitude := r.longitude }

/-- Patching one event's enrichment from a backfill resolution
(`llm_enrich.py:264-285`): an existing entry is patched in place, a missing
one is created from the resolved record. -/
def backfillPatch (r : CacheRec) (st : EnrichState) (eid : String) : EnrichState :=
  match lookupA st.lookup eid with
  | some enr => { st with lookup := setA st.lookup eid (patchEnr r enr) }
  | none =>
    { st with
      lookup := setA st.lookup eid
        { event_id := eid, venue_name := r.venue_name,
          neighborhood := r.neighborhood, city := r.city,
          cuisine := r.cuisine, latitude := r.latitude,
          longitude := r.longitude } }

/-- One geocode-backfill iteration (`llm_enrich.py:237-285`). -/
def backfillStep (pc0 : List (String × CacheRec))
    (geoNet : String → Option CacheRec) (st : EnrichState) (loc : String) :
    EnrichState :=
  let cached := (lookupA st.cache loc).getD {}
  if cached.latitude.isSome && cached.longitude.isSome then st
  else
    let low := pyLower loc
    if pyStartsWith low "http://" || pyStartsWith low "https://" then st
    else if geocodeBad low then st
    else
      let rpc := resolvePlaceStep pc0 geoNet st.pcKeys st.geoCalls loc
      let st := { st with pcKeys := rpc.2.1, geoCalls := rpc.2.2 }
      match rpc.1 with
      | none => st
      | some r =>
        let st := cacheWrite st loc (mergeCacheRec cached r)
        ((lookupA st.seen_locations loc).getD []).foldl (backfillPatch r) st

/-- The observable result of `enrich_all_events`. -/
structure EnrichRunOut where
  lookup : List (String × LocationEnrichment)
  cache : List (String × CacheRec)
  unique_events : List PromptItem
  geoCalls : Nat
  writes : List (String × CacheRec)
deriving DecidableEq

def EnrichState.out (st : EnrichState) : EnrichRunOut :=
  { lookup := st.lookup, cache := st.cache, unique_events := st.unique_events,
    geoCalls := st.geoCalls, writes := st.writes }

/-- `enrich_all_events`: dedup pass, early return when there is nothing to
resolve, LLM batch resolution (the parallel caller returns `[]` for an empty
input without any call), result merge, same-location propagation, and the
geocode backfill. -/
def enrichPhase1 (gk : Bool) (pc0 : List (String × CacheRec))
    (geoNet : String → Option CacheRec) (cache0 : List (String × CacheRec))
    (events : List NormalizedEvent) : EnrichState :=
  events.foldl (enrichStep gk pc0 geoNet) (initEnrichState cache0 pc0)

def enrich_all_events (gk : Bool) (pc0 : List (String × CacheRec))
    (geoNet : String → Option CacheRec)
    (llm : List PromptItem → List LocationEnrichment)
    (cache0 : List (String × CacheRec)) (events : List NormalizedEvent) :
    EnrichRunOut :=
  let st1 := enrichPhase1 gk pc0 geoNet cache0 events
  match st1.unique_events, st1.geocode_targets with
  | [], [] => st1.out
  | ue, gt =>
    let results :=
      match ue with
      | [] => []
      | _ :: _ => llm ue
    let st2 := results.foldl enrichMergeStep st1
    let st3 := ue.foldl propagateItem st2
    let st4 :=
      if gk && !gt.isEmpty then gt.foldl (backfillStep pc0 geoNet) st3
      else st3
    st4.out

/-! ## Claim C2 — merge suggestions -/

/-- The inferred friend of the spec's merge-match example. -/
def danInf : InferredFriend :=
  { name := some "Dan", normalized_name := "dan", event_count := 1, total_hours := 0 }

/-- The email friend `daniel.smith@example.com` with display name
`"Dan Smith"`. -/
def danSmithFriend : FriendStats :=
  { email := "daniel.smith@example.com", display_name := some "Dan Smith",
    event_count := 1, total_hours := 0 }

/-- The email friend `daniel.smith@example.com` with display name
`"Daniel S."`. -/
def danielSFriend : FriendStats :=
  { email := "daniel.smith@example.com", display_name := some "Daniel S.",
    event_count := 1, total_hours := 0 }

/-- C2, counterexample: the claim asserts that inferred name "Dan" with
email `daniel.smith@example.com` and display name "Daniel S." yields
confidence "medium"; on the code the lower-cased display name
`"daniel s."` contains the substring `"dan"`, so `display_match` is truthy
and the emitted confidence is "high", not "medium". -/
theorem c2_daniel_s_confidence_is_high :
    (suggest_merges [danInf] [danielSFriend]).map MergeSuggestion.confidence
        = ["high"] ∧
      (suggest_merges [danInf] [danielSFriend]).map MergeSuggestion.confidence
        ≠ ["medium"] := by
  decide

/-- C2 (amended): `suggest_merges` emits a suggestion for every
(inferred friend, email friend) pair in which the normalized inferred name
is a substring of the lower-cased email local-part or vice versa, with
confidence "high" exactly when the (truthy) display name contains the
normalized inferred name as a substring and "medium" otherwise; inferred
name "Dan" with email `daniel.smith@example.com` and display name
"Dan Smith" yields confidence "high", and the same email with display name
"Daniel S." also yields confidence "high" (its lower-cased display name
contains "dan"). -/
theorem c2_merge_rule_and_examples :
    (∀ (inferred : List InferredFriend) (efs : List FriendStats)
        (inf : InferredFriend) (ef : FriendStats),
        inf ∈ inferred → ef ∈ efs → nameMatches inf ef = true →
          mkSuggestion inf ef ∈ suggest_merges inferred efs ∧
            (mkSuggestion inf ef).confidence =
              (if displayMatch inf ef then "high" else "medium")) ∧
      (suggest_merges [danInf] [danSmithFriend]).map MergeSuggestion.confidence
          = ["high"] ∧
      (suggest_merges [danInf] [danielSFriend]).map MergeSuggestion.confidence
          = ["high"] := by
  refine ⟨?_, by decide, by decide⟩
  intro inferred efs inf ef hinf hef hmatch
  refine ⟨?_, rfl⟩
  unfold suggest_merges
  refine List.mem_flatMap.mpr ⟨inf, hinf, ?_⟩
  exact List.mem_filterMap.mpr ⟨ef, hef, by simp [hmatch]⟩

/-- C2, witness: the amended rule applied to the "Dan Smith" example pair. -/
theorem c2_merge_rule_witness :
    mkSuggestion danInf danSmithFriend ∈ suggest_merges [danInf] [danSmithFriend] ∧
      (mkSuggestion danInf danSmithFriend).confidence =
        (if displayMatch danInf danSmithFriend then "high" else "medium") :=
  c2_merge_rule_and_examples.1 [danInf] [danSmithFriend] danInf danSmithFriend
    (List.mem_singleton.mpr rfl) (List.mem_singleton.mpr rfl) (by decide)

/-! ## Claim C3 — retry with exponential backoff -/

/-- The retry loop never makes more attempts than it has fuel. -/
theorem runBatchAux_attempts_le {α : Type} (call : Nat → CallRes)
    (parse : String → ParseRes α) :
    ∀ (fuel a : Nat) (lastE : Option String),
      (runBatchAux call parse fuel a lastE).attempts ≤ fuel := by
  intro fuel
  induction fuel with
  | zero => intro a lastE; simp [runBatchAux]
  | succ n ih =>
    intro a lastE
    unfold runBatchAux
    cases hc : call a with
    | success content =>
      by_cases h0 : content = ""
      · simp [h0]
      · simp only [h0, if_false]
        cases hp : parse (stripFence content) with
        | ok rs => simp
        | softErr => simp
        | exn msg =>
          by_cases ht : isTransientErr msg
          · have := ih (a + 1) (some msg)
            simp only [ht, if_true]
            omega
          · simp [ht]
    | failure err =>
      by_cases ht : isTransientErr err
      · have := ih (a + 1) (some err)
        simp only [ht, if_true]
        omega
      · simp [ht]

/-- C3: on a single batch call, transiently-classified errors (rate limit or
timeout signals) are retried with sleeps of `5 * 2 ^ attempt` seconds for
attempts 0..4 — i.e. 5, 10, 20, 40, 80 seconds — with the last transient
error re-raised after the fifth failed attempt; a non-transient error on the
first attempt is re-raised immediately with no sleep and no retry; and no
call ever makes more than 5 attempts. -/
theorem c3_retry_backoff {α : Type} (parse : String → ParseRes α) :
    (∀ (call : Nat → CallRes) (errs : Nat → String),
        (∀ i, i < 5 → call i = CallRes.failure (errs i) ∧
            isTransientErr (errs i) = true) →
          callBatch call parse =
            { sleeps := [5, 10, 20, 40, 80], attempts := 5,
              result := Except.error (errs 4) }) ∧
      (∀ (call : Nat → CallRes) (e : String),
          call 0 = CallRes.failure e → isTransientErr e = false →
            callBatch call parse =
              { sleeps := [], attempts := 1, result := Except.error e }) ∧
      (∀ call : Nat → CallRes, (callBatch call parse).attempts ≤ 5) := by
  refine ⟨?_, ?_, fun call => runBatchAux_attempts_le call parse 5 0 none⟩
  · intro call errs h
    have h0 := h 0 (by norm_num)
    have h1 := h 1 (by norm_num)
    have h2 := h 2 (by norm_num)
    have h3 := h 3 (by norm_num)
    have h4 := h 4 (by norm_num)
    simp [callBatch, runBatchAux, h0.1, h0.2, h1.1, h1.2, h2.1, h2.2, h3.1,
      h3.2, h4.1, h4.2]
  · intro call e hc ht
    simp [callBatch, runBatchAux, hc, ht]

/-- A network oracle that fails every attempt with a rate-limit signal. -/
def transientCall : Nat → CallRes := fun _ => CallRes.failure "429 Too Many Requests"

/-- A parse oracle on which JSON decoding always fails (any
non-JSON-response scenario). -/
def noParse : String → ParseRes Nat := fun _ => ParseRes.softErr

/-- C3, witness: five transiently failing attempts sleep 5/10/20/40/80
seconds and re-raise the last error. -/
theorem c3_retry_backoff_witness :
    callBatch transientCall noParse =
      { sleeps := [5, 10, 20, 40, 80], attempts := 5,
        result := Except.error "429 Too Many Requests" } :=
  (c3_retry_backoff noParse).1 transientCall (fun _ => "429 Too Many Requests")
    (fun i _ => ⟨rfl, by show isTransientErr "429 Too Many Requests" = true; decide⟩)

/-! ## Claim C4 — parse failure soft-fails per batch -/

/-- Batch-index-shifted all-ok characterisation of `gatherBatches`. -/
theorem gatherBatches_ok {α : Type} (parse : String → ParseRes α)
    (call : Nat → Nat → CallRes) (f : Nat → List α) :
    ∀ (bs : List (List PromptItem)) (i : Nat),
      (∀ j, j < bs.length →
          (callBatch (call (i + j)) parse).result = Except.ok (f (i + j))) →
        gatherBatches call parse i bs =
          Except.ok (((List.range bs.length).map (fun j => f (i + j))).flatten) := by
  intro bs
  induction bs with
  | nil => intro i h; simp [gatherBatches]
  | cons b t ih =>
    intro i h
    have h0 : (callBatch (call i) parse).result = Except.ok (f i) := by
      simpa using h 0 (by simp)
    have hrec := ih (i + 1) (fun j hj => by
      have := h (j + 1) (by simpa using Nat.succ_lt_succ hj)
      simpa [Nat.add_assoc, Nat.add_comm 1 j] using this)
    unfold gatherBatches
    rw [h0, hrec]
    have hlen : (b :: t).length = t.length + 1 := rfl
    rw [hlen, List.range_succ_eq_map]
    have harg : (fun j => f (i + 1 + j)) = fun j => f (i + (j + 1)) := by
      funext j
      congr 1
      omega
    simp [harg, List.map_map, Function.comp_def, Nat.succ_eq_add_one]

/-- C4 (amended): a batch whose non-empty response fails JSON decoding, or
raises `KeyError` in the parse function (after stripping an optional fenced
code block), yields the empty result list for that batch — no raise, no
retry, no sleep — and whenever every batch's outcome is non-raising, the
parallel caller returns exactly the concatenation of the per-batch results,
so such a soft-failed batch leaves the other batches' results intact.  A
response whose parse raises any *other* exception — e.g.
`AttributeError`/`TypeError` on valid JSON of an unexpected shape — is not
soft-failed: it reaches the generic attempt handler, which re-raises it
immediately (aborting the batch) when its message carries no
rate-limit/timeout signal, and otherwise retries the whole call with the
usual backoff, re-raising after the fifth attempt. -/
theorem c4_parse_failure_soft {α : Type} (parse : String → ParseRes α) :
    (∀ (call : Nat → CallRes) (content : String),
        call 0 = CallRes.success content → content ≠ "" →
        parse (stripFence content) = ParseRes.softErr →
          callBatch call parse =
            { sleeps := [], attempts := 1, result := Except.ok [] }) ∧
      (∀ (call : Nat → Nat → CallRes) (batchSize : Nat) (items : List PromptItem)
          (f : Nat → List α),
          (∀ i, i < (chunks batchSize items).length →
              (callBatch (call i) parse).result = Except.ok (f i)) →
            callOpenaiParallel call parse batchSize items =
              Except.ok
                (((List.range (chunks batchSize items).length).map f).flatten)) ∧
      (∀ (call : Nat → CallRes) (content msg : String),
          call 0 = CallRes.success content → content ≠ "" →
          parse (stripFence content) = ParseRes.exn msg →
          isTransientErr msg = false →
            callBatch call parse =
              { sleeps := [], attempts := 1, result := Except.error msg }) ∧
      (∀ (call : Nat → CallRes) (content msg : String),
          (∀ i, call i = CallRes.success content) → content ≠ "" →
          parse (stripFence content) = ParseRes.exn msg →
          isTransientErr msg = true →
            callBatch call parse =
              { sleeps := [5, 10, 20, 40, 80], attempts := 5,
                result := Except.error msg }) := by
  refine ⟨?_, ?_, ?_, ?_⟩
  · intro call content hc hne hp
    simp [callBatch, runBatchAux, hc, hne, hp]
  · intro call batchSize items f h
    match items with
    | [] => simp [callOpenaiParallel, chunks, chunksGo]
    | x :: xs =>
      have := gatherBatches_ok parse call f (chunks batchSize (x :: xs)) 0
        (fun j hj => by simpa using h j hj)
      simpa [callOpenaiParallel] using this
  · intro call content msg hc hne hp ht
    simp [callBatch, runBatchAux, hc, hne, hp, ht]
  · intro call content msg hc hne hp ht
    simp [callBatch, runBatchAux, hc, hne, hp, ht]

/-- A network oracle answering immediately with unparseable (non-JSON)
text. -/
def softFailCall : Nat → CallRes :=
  fun _ => CallRes.success "not a structured response"

/-- A network oracle answering every attempt with valid JSON of the wrong
shape: a bare list where the parse functions expect an object. -/
def wrongShapeCall : Nat → CallRes := fun _ => CallRes.success "[1,2,3]"

/-- The parse outcome on that response: `_parse_location_results` calls
`data.get` on a list, raising `AttributeError` — an exception class the
inner handler (`llm_enrich.py:654`) does not catch. -/
def wrongShapeParse : String → ParseRes LocationEnrichment :=
  fun _ =>
    ParseRes.exn
      "AttributeError: \u0027list\u0027 object has no attribute \u0027get\u0027"

/-- C4, counterexample to the original claim: a non-empty response that
cannot be parsed as the expected structured JSON, being valid JSON of the
wrong shape, makes the parse function raise; the generic handler classifies
the error non-transient and re-raises it on the first attempt, so the batch
aborts with the error instead of returning the empty result list. -/
theorem c4_wrong_shape_raises :
    (callBatch wrongShapeCall wrongShapeParse).result =
        Except.error
          "AttributeError: \u0027list\u0027 object has no attribute \u0027get\u0027" ∧
      (callBatch wrongShapeCall wrongShapeParse).sleeps = [] ∧
      (callBatch wrongShapeCall wrongShapeParse).attempts = 1 :=
  ⟨rfl, rfl, rfl⟩

/-- C4, witness: the soft-fail case at a concrete non-JSON response. -/
theorem c4_parse_failure_witness :
    callBatch softFailCall noParse =
      { sleeps := [], attempts := 1, result := Except.ok [] } :=
  (c4_parse_failure_soft noParse).1 softFailCall "not a structured response" rfl
    (by decide) rfl

/-! ## Claim C8 — SOCIAL aggregation -/

/-- The classification table of the spec's aggregation example: two events,
both classified SOCIAL with names `["Masha"]`, 2.0 and 1.0 hours. -/
def mashaCls : List (String × ClsFull) :=
  [("1",
    { event_id := "1", type := some "SOCIAL", names := ["Masha"],
      summary := some "Dinner with Masha", date := some "2024-03-01",
      hours := some 2.0 }),
   ("2",
    { event_id := "2", type := some "SOCIAL", names := ["Masha"],
      summary := some "Coffee w/ Masha", date := some "2024-03-02",
      hours := some 1.0 })]

/-- C8: `_aggregate_inferred_friends` groups SOCIAL events by the trimmed
lower-cased person name, accumulating event count and hours and keeping the
first-seen raw name as display name; its output is always sorted by
`(event_count, total_hours)` descending; and on the example — "Dinner with
Masha" (2.0h) and "Coffee w/ Masha" (1.0h), both SOCIAL with names
`["Masha"]` — it produces a single inferred friend with display name
"Masha", `normalized_name = "masha"`, `event_count = 2` and
`total_hours = 3.0`. -/
theorem c8_aggregate_inferred_friends :
    (∀ ids cls enr,
        List.Sorted friendBefore (aggregate_inferred_friends ids cls enr)) ∧
      (aggregate_inferred_friends ["1", "2"] mashaCls none).map
          (fun f => (f.name, f.normalized_name, f.event_count)) =
        [(some "Masha", "masha", 2)] ∧
      (aggregate_inferred_friends ["1", "2"] mashaCls none).map
          InferredFriend.total_hours = [3.0] := by
  refine ⟨fun ids cls enr => List.sorted_insertionSort friendBefore _, by decide, ?_⟩
  have key : (aggregate_inferred_friends ["1", "2"] mashaCls none).map
      InferredFriend.total_hours = [pyRound1 ((0 : ℚ) + 2.0 + 1.0)] := rfl
  rw [key]
  norm_num [pyRound1, Int.fract]

/-! ## Association-list and fold lemmas -/

theorem lookupA_setA_self {α : Type} (l : List (String × α)) (k : String) (v : α) :
    lookupA (setA l k v) k = some v := by
  induction l with
  | nil => simp [setA, lookupA]
  | cons p t ih =>
    by_cases h : p.1 = k
    · simp [setA, lookupA, h]
    · simp [setA, lookupA, h, ih]

theorem lookupA_setA_ne {α : Type} (l : List (String × α)) (k k' : String) (v : α)
    (h : k' ≠ k) : lookupA (setA l k v) k' = lookupA l k' := by
  have hkk : ¬k = k' := fun he => h he.symm
  induction l with
  | nil => simp [setA, lookupA, hkk]
  | cons p t ih =>
    by_cases hp : p.1 = k
    · simp [setA, lookupA, hp, hkk]
    · simp [setA, lookupA, hp, ih]

theorem lookupA_pushAt_self {α : Type} (l : List (String × List α)) (k : String)
    (x : α) :
    lookupA (pushAt l k x) k = some ((lookupA l k).getD [] ++ [x]) := by
  induction l with
  | nil => simp [pushAt, lookupA]
  | cons p t ih =>
    by_cases h : p.1 = k
    · simp [pushAt, lookupA, h]
    · simp [pushAt, lookupA, h, ih]

theorem lookupA_pushAt_ne {α : Type} (l : List (String × List α)) (k k' : String)
    (x : α) (h : k' ≠ k) : lookupA (pushAt l k x) k' = lookupA l k' := by
  have hkk : ¬k = k' := fun he => h he.symm
  induction l with
  | nil => simp [pushAt, lookupA, hkk]
  | cons p t ih =>
    by_cases hp : p.1 = k
    · simp [pushAt, lookupA, hp, hkk]
    · simp [pushAt, lookupA, hp, ih]

theorem lookupA_append {α : Type} (l1 l2 : List (String × α)) (k : String) :
    lookupA (l1 ++ l2) k =
      match lookupA l1 k with
      | some v => some v
      | none => lookupA l2 k := by
  induction l1 with
  | nil => simp [lookupA]
  | cons p t ih =>
    by_cases h : p.1 = k
    · simp [lookupA, h]
    · simp [lookupA, h, ih]

/-- A fold preserves any invariant its step preserves. -/
theorem foldl_pres {σ α : Type} {P : σ → Prop} {f : σ → α → σ}
    (h : ∀ s a, P s → P (f s a)) :
    ∀ (l : List α) (s : σ), P s → P (l.foldl f s) := by
  intro l
  induction l with
  | nil => intro s hs; simpa using hs
  | cons a t ih => intro s hs; exact ih (f s a) (h s a hs)

/-! ## Claim C1 — dedup fan-out at a long key (code bug) -/

/-- A 161-character location string: one character longer than the
`_shorten_location` truncation limit. -/
def longLoc : String := ⟨List.replicate 161 'a'⟩

def c1Event1 : NormalizedEvent :=
  { id := "e1", summary := some "Dinner", location_raw := some longLoc,
    date := "2024-01-01", duration_minutes := 60 }

def c1Event2 : NormalizedEvent :=
  { id := "e2", summary := some "Dinner again", location_raw := some longLoc,
    date := "2024-01-02", duration_minutes := 60 }

/-- A resolver that answers every prompt item with a resolved venue keyed by
the item's own event id (the well-formed response shape). -/
def c1LLM : List PromptItem → List LocationEnrichment :=
  fun items => items.map fun it =>
    { event_id := it.event_id, venue_name := some "Resolved Venue" }

set_option maxRecDepth 40000 in
/-- C1, failing input: two events share the identical non-empty, uncached
161-character dedup key `longLoc`.  Exactly one representative prompt item
is sent (as the claim says), and the resolver answers it, but the
propagation loop (`llm_enrich.py:218-233`) looks up `seen_locations` by the
item's `location` field, which holds `_shorten_location`'s 160-character
truncation of the key rather than the key itself; the lookup misses, so the
second event receives no entry at all in the returned enrichment lookup,
contradicting the claim (and the source's own comment "Propagate
enrichments to all events with same location"). -/
theorem c1_long_key_propagation_dropped :
    (enrich_all_events false [] (fun _ => none) c1LLM []
          [c1Event1, c1Event2]).unique_events.length = 1 ∧
      (lookupA (enrich_all_events false [] (fun _ => none) c1LLM []
          [c1Event1, c1Event2]).lookup "e1").isSome = true ∧
      lookupA (enrich_all_events false [] (fun _ => none) c1LLM []
          [c1Event1, c1Event2]).lookup "e2" = none := by
  decide

/-! ## Claim C10 — every lookup entry is keyed by its own event id -/

/-- The C10 invariant: each enrichment in the lookup carries the event id it
is stored under. -/
def LookP (l : List (String × LocationEnrichment)) : Prop :=
  ∀ p ∈ l, p.2.event_id = p.1

theorem LookP_setA {k : String} {v : LocationEnrichment} (hv : v.event_id = k) :
    ∀ {l : List (String × LocationEnrichment)}, LookP l → LookP (setA l k v) := by
  intro l
  induction l with
  | nil =>
    intro _ p hp
    simp [setA] at hp
    subst hp
    exact hv
  | cons q t ih =>
    intro h p hp
    have hq := h q (by simp)
    have ht : LookP t := fun r hr => h r (by simp [hr])
    by_cases hk : q.1 = k
    · simp only [setA, if_pos hk] at hp
      rcases List.mem_cons.mp hp with hp | hp
      · subst hp
        simpa [hk] using hv
      · exact ht p hp
    · simp only [setA, if_neg hk] at hp
      rcases List.mem_cons.mp hp with hp | hp
      · subst hp
        exact hq
      · exact ih ht p hp

theorem LookP_lookupA {k : String} {v : LocationEnrichment} :
    ∀ {l : List (String × LocationEnrichment)}, LookP l → lookupA l k = some v →
      v.event_id = k := by
  intro l
  induction l with
  | nil => intro _ hl; simp [lookupA] at hl
  | cons q t ih =>
    intro h hl
    by_cases hk : q.1 = k
    · simp only [lookupA, if_pos hk] at hl
      have hv : q.2 = v := Option.some.inj hl
      have := h q (by simp)
      rw [hv] at this
      exact hk ▸ this
    · simp only [lookupA, if_neg hk] at hl
      exact ih (fun r hr => h r (by simp [hr])) hl

theorem patchEnr_event_id (r : CacheRec) (enr : LocationEnrichment) :
    (patchEnr r enr).event_id = enr.event_id := by
  unfold patchEnr
  dsimp only
  split <;> split <;> split <;> split <;> rfl

theorem enrichQueue_lookup (gk : Bool) (st : EnrichState) (e : NormalizedEvent)
    (loc : String) : (enrichQueue gk st e loc).lookup = st.lookup := by
  unfold enrichQueue
  dsimp only
  split <;> split <;> rfl

theorem enrichStep_LookP (gk : Bool) (pc0 : List (String × CacheRec))
    (geoNet : String → Option CacheRec) (st : EnrichState) (e : NormalizedEvent)
    (h : LookP st.lookup) : LookP (enrichStep gk pc0 geoNet st e).lookup := by
  unfold enrichStep
  split
  · exact h
  · dsimp only
    split
    · exact h
    · split
      · exact h
      · split
        · next cached _ =>
          try dsimp only
          split
          · exact LookP_setA (v := location_enrichment_from_cache e.id cached) rfl h
          · exact LookP_setA (v := location_enrichment_from_cache e.id cached) rfl h
        · split
          · try dsimp only
            split
            · next r _ =>
              exact LookP_setA (v := location_enrichment_from_cache e.id r) rfl h
            · rw [enrichQueue_lookup]
              exact h
          · rw [enrichQueue_lookup]
            exact h

theorem enrichMergeStep_LookP (st : EnrichState) (r : LocationEnrichment)
    (h : LookP st.lookup) : LookP (enrichMergeStep st r).lookup := by
  unfold enrichMergeStep
  dsimp only
  split
  · exact LookP_setA rfl h
  · split
    · exact LookP_setA rfl h
    · dsimp only [cacheWrite]
      exact LookP_setA rfl h

theorem propagateItem_LookP (st : EnrichState) (item : PromptItem)
    (h : LookP st.lookup) : LookP (propagateItem st item).lookup := by
  unfold propagateItem
  refine foldl_pres (P := fun (st : EnrichState) => LookP st.lookup) ?_ _ st h
  intro s eid hs
  dsimp only
  split
  · exact hs
  · split
    · exact hs
    · next template _ =>
      exact LookP_setA (v := { template with event_id := eid }) rfl hs

theorem backfillStep_LookP (pc0 : List (String × CacheRec))
    (geoNet : String → Option CacheRec) (st : EnrichState) (loc : String)
    (h : LookP st.lookup) : LookP (backfillStep pc0 geoNet st loc).lookup := by
  unfold backfillStep
  dsimp only
  split
  · exact h
  · split
    · exact h
    · split
      · exact h
      · split
        · exact h
        · next r _heq =>
          refine foldl_pres (P := fun (st : EnrichState) => LookP st.lookup) ?_ _ _ h
          intro s eid hs
          unfold backfillPatch
          split
          · next enr henr =>
            exact LookP_setA (v := patchEnr r enr)
              ((patchEnr_event_id _ _).trans (LookP_lookupA hs henr)) hs
          · exact LookP_setA
              (v := { event_id := eid, venue_name := r.venue_name,
                      neighborhood := r.neighborhood, city := r.city,
                      cuisine := r.cuisine, latitude := r.latitude,
                      longitude := r.longitude }) rfl hs

/-- C10: every key of the lookup returned by `enrich_all_events` maps to a
record whose `event_id` field equals that key — on every code path (cache
hit, GeoResolver bypass, LLM result, same-key propagation, geocode
backfill), each record is stored under its own event id. -/
theorem c10_lookup_keyed_by_event_id (gk : Bool) (pc0 : List (String × CacheRec))
    (geoNet : String → Option CacheRec)
    (llm : List PromptItem → List LocationEnrichment)
    (cache0 : List (String × CacheRec)) (events : List NormalizedEvent) :
    ∀ p ∈ (enrich_all_events gk pc0 geoNet llm cache0 events).lookup,
      p.2.event_id = p.1 := by
  have h1 : LookP (events.foldl (enrichStep gk pc0 geoNet)
      (initEnrichState cache0 pc0)).lookup := by
    refine foldl_pres (P := fun (st : EnrichState) => LookP st.lookup) ?_ _ _ ?_
    · intro s e hs
      exact enrichStep_LookP gk pc0 geoNet s e hs
    · intro p hp
      simp [initEnrichState] at hp
  have h2 : ∀ (rs : List LocationEnrichment) (s : EnrichState),
      LookP s.lookup → LookP (rs.foldl enrichMergeStep s).lookup :=
    fun rs s hs =>
      foldl_pres (P := fun (st : EnrichState) => LookP st.lookup)
        (fun s r hs => enrichMergeStep_LookP s r hs) rs s hs
  have h3 : ∀ (its : List PromptItem) (s : EnrichState),
      LookP s.lookup → LookP (its.foldl propagateItem s).lookup :=
    fun its s hs =>
      foldl_pres (P := fun (st : EnrichState) => LookP st.lookup)
        (fun s it hs => propagateItem_LookP s it hs) its s hs
  have h4 : ∀ (locs : List String) (s : EnrichState),
      LookP s.lookup → LookP (locs.foldl (backfillStep pc0 geoNet) s).lookup :=
    fun locs s hs =>
      foldl_pres (P := fun (st : EnrichState) => LookP st.lookup)
        (fun s loc hs => backfillStep_LookP pc0 geoNet s loc hs) locs s hs
  unfold enrich_all_events
  dsimp only
  split
  · exact h1
  · split
    · exact h4 _ _ (h3 _ _ (h2 _ _ h1))
    · exact h3 _ _ (h2 _ _ h1)

/-- Witness for C10 at a concrete cache-hit run: the one lookup entry the
run produces carries its own key as `event_id`. -/
theorem c10_lookup_keyed_witness :
    (("e10w", location_enrichment_from_cache "e10w"
        { venue_name := some "Cafe Y" }) ∈
      (enrich_all_events false [] (fun _ => none) (fun _ => [])
        [("Cafe Y", { venue_name := some "Cafe Y" })]
        [{ id := "e10w", summary := some "Coffee",
           location_raw := some "Cafe Y", date := "2024-01-02",
           duration_minutes := 30 }]).lookup) ∧
    (location_enrichment_from_cache "e10w"
        { venue_name := some "Cafe Y" }).event_id = "e10w" :=
  ⟨by decide,
   c10_lookup_keyed_by_event_id false [] (fun _ => none) (fun _ => [])
     [("Cafe Y", { venue_name := some "Cafe Y" })]
     [{ id := "e10w", summary := some "Coffee",
        location_raw := some "Cafe Y", date := "2024-01-02",
        duration_minutes := 30 }]
     ("e10w", location_enrichment_from_cache "e10w"
       { venue_name := some "Cafe Y" })
     (by decide)⟩

/-! ## Claim C5 — blank source fields -/

/-- An absent, empty, or whitespace-only raw location (the location
enrichment skip condition, `llm_enrich.py:159-163`). -/
def blankLocation (e : NormalizedEvent) : Prop :=
  match e.location_raw with
  | none => True
  | some raw => pyStrip raw = ""

/-- An absent or empty summary (the classification skip condition,
`llm_enrich.py:314`; whitespace-only summaries are truthy and are *not*
skipped). -/
def blankSummary (e : NormalizedEvent) : Prop :=
  e.summary = none ∨ e.summary = some ""

theorem enrichStep_blank (gk : Bool) (pc0 : List (String × CacheRec))
    (geoNet : String → Option CacheRec) (e : NormalizedEvent)
    (he : blankLocation e) : ∀ s, enrichStep gk pc0 geoNet s e = s := by
  intro s
  unfold enrichStep
  unfold blankLocation at he
  rcases hloc : e.location_raw with _ | raw
  · simp [hloc]
  · simp only [hloc] at he
    by_cases hr : raw = ""
    · simp [hloc, hr]
    · simp [hloc, hr, he]

theorem clsStep_blank (ccache : List (String × ClsCore)) (e : NormalizedEvent)
    (he : blankSummary e) : ∀ s, clsStep ccache s e = s := by
  intro s
  unfold clsStep
  rcases he with he | he <;> simp [he]

/-- Skipping an element whose step is the identity leaves a fold unchanged. -/
theorem foldl_skip {σ α : Type} (f : σ → α → σ) (e : α) (he : ∀ s, f s e = s)
    (l1 l2 : List α) (s : σ) :
    (l1 ++ e :: l2).foldl f s = (l1 ++ l2).foldl f s := by
  simp [List.foldl_append, he]

/-- C5 (amended): an event whose `location_raw` is absent, empty or
whitespace-only is excluded from location enrichment entirely — running
`enrich_all_events` with the event present is identical, in every
observable (lookup, cache, prompt items, geocoder calls, write log), to
running it with the event removed; an event whose `summary` is absent or
empty is likewise excluded from classification entirely.  (Whitespace-only
summaries are *not* excluded from classification: they are processed under
the empty dedup key, see the counterexample.) -/
theorem c5_blank_fields_excluded :
    (∀ (gk : Bool) (pc0 : List (String × CacheRec))
        (geoNet : String → Option CacheRec)
        (llm : List PromptItem → List LocationEnrichment)
        (cache0 : List (String × CacheRec)) (es1 es2 : List NormalizedEvent)
        (e : NormalizedEvent), blankLocation e →
        enrich_all_events gk pc0 geoNet llm cache0 (es1 ++ e :: es2) =
          enrich_all_events gk pc0 geoNet llm cache0 (es1 ++ es2)) ∧
      (∀ (ccache0 : List (String × ClsCore))
          (cls : List ClsPromptItem → List ClsOut)
          (es1 es2 : List NormalizedEvent) (e : NormalizedEvent),
          blankSummary e →
          classifyRun ccache0 cls (es1 ++ e :: es2) =
            classifyRun ccache0 cls (es1 ++ es2)) := by
  constructor
  · intro gk pc0 geoNet llm cache0 es1 es2 e he
    unfold enrich_all_events enrichPhase1
    rw [foldl_skip (enrichStep gk pc0 geoNet) e (enrichStep_blank gk pc0 geoNet e he)]
  · intro ccache0 cls es1 es2 e he
    unfold classifyRun
    rw [foldl_skip (clsStep ccache0) e (clsStep_blank ccache0 e he)]

/-- An event with a whitespace-only location and an empty summary. -/
def blankEvent : NormalizedEvent :=
  { id := "b1", summary := some "", location_raw := some "   ",
    date := "2024-01-01", duration_minutes := 0 }

/-- C5, witness: dropping `blankEvent` changes neither pipeline's result. -/
theorem c5_blank_fields_witness :
    enrich_all_events false [] (fun _ => none) (fun _ => []) []
        ([] ++ blankEvent :: []) =
      enrich_all_events false [] (fun _ => none) (fun _ => []) [] ([] ++ []) ∧
    classifyRun [] (fun _ => []) ([] ++ blankEvent :: []) =
      classifyRun [] (fun _ => []) ([] ++ []) :=
  ⟨c5_blank_fields_excluded.1 false [] (fun _ => none) (fun _ => []) [] [] []
      blankEvent (by show pyStrip "   " = ""; rfl),
    c5_blank_fields_excluded.2 [] (fun _ => []) [] [] blankEvent (Or.inr rfl)⟩

/-- An event whose summary is whitespace-only (truthy in Python). -/
def wsEvent : NormalizedEvent :=
  { id := "w1", summary := some "   ", location_raw := none,
    date := "2024-01-01", duration_minutes := 0 }

/-- C5, counterexample: the claim says an event with a whitespace-only
summary is excluded from classification entirely — no dedup key, no prompt
item, no output entry.  On the code, `if not e.summary` does not skip the
whitespace-only summary `"   "`; the event contributes the empty string as
its dedup key and its own prompt item is queued for the classifier. -/
theorem c5_whitespace_summary_not_skipped :
    (classifyRun [] (fun _ => []) [wsEvent]).toSend.map ClsPromptItem.event_id
        = ["w1"] ∧
      lookupA (classifyRun [] (fun _ => []) [wsEvent]).state.summary_for_event
          "w1" = some "" := by
  decide

/-! ## Claims C6/C7 — counterexamples -/

/-- A cache holding one key whose record has a venue and a latitude but no
longitude (as a persisted cache legitimately can after a partial geocode). -/
def c6Cache0 : List (String × CacheRec) :=
  [("Thai Villa 5th Ave",
    { venue_name := some "Thai Villa", latitude := some 40, longitude := none })]

/-- A geocoder that finds a place name but no coordinates. -/
def c6Geo : String → Option CacheRec :=
  fun _ => some { venue_name := some "Geo Venue" }

def c6Event : NormalizedEvent :=
  { id := "g1", summary := some "Dinner", location_raw := some "Thai Villa 5th Ave",
    date := "2024-01-01", duration_minutes := 60 }

/-- C6, counterexample: the claim says latitude/longitude may only be
overwritten by a newly resolved non-null value.  With a maps key
configured, a cached record carrying `latitude = 40` but no longitude is a
geocode-backfill target; when the geocoder resolves the key without
coordinates, the merge writes `latitude := resolved.latitude = null`,
erasing the previously present latitude. -/
theorem c6_backfill_nulls_latitude :
    ((lookupA c6Cache0 "Thai Villa 5th Ave").bind CacheRec.latitude).isSome
        = true ∧
      ((lookupA (enrich_all_events true [] c6Geo (fun _ => []) c6Cache0
            [c6Event]).cache "Thai Villa 5th Ave").bind CacheRec.latitude)
        = none := by
  decide

/-- C7, counterexample: the claim says that with a cache already containing
every dedup key produced by the event list, a run issues zero external
calls.  With a maps key configured and the (covered) cached record missing
a coordinate, the run still issues a geocoder network call for that key —
and does so again on every rerun, since a failed/coordinate-less resolution
is never cached. -/
theorem c7_second_run_still_geocodes :
    (lookupA c6Cache0 "Thai Villa 5th Ave").isSome = true ∧
      (enrich_all_events true [] c6Geo (fun _ => []) c6Cache0
          [c6Event]).unique_events = [] ∧
      (enrich_all_events true [] c6Geo (fun _ => []) c6Cache0
          [c6Event]).geoCalls = 1 := by
  decide

/-! ## Claim C6 — cache-merge monotonicity (amended)

`cacheMonoStep c c'` is the per-write property the amended claim asserts of
every cache assignment: keys are never deleted, a populated (truthy)
non-coordinate field of an existing record is never changed (in particular
never set back to empty or null), and the coordinates of a record that has
both coordinates present are never modified — so coordinates can only be
rewritten (by the geocode backfill, possibly with null) while at least one
of them is missing. -/

def cacheMonoStep (c c' : List (String × CacheRec)) : Prop :=
  ∀ k : String,
    match lookupA c k, lookupA c' k with
    | some r, some r' =>
      (truthyS r.venue_name = true → r'.venue_name = r.venue_name) ∧
        (truthyS r.neighborhood = true → r'.neighborhood = r.neighborhood) ∧
        (truthyS r.city = true → r'.city = r.city) ∧
        (truthyS r.cuisine = true → r'.cuisine = r.cuisine) ∧
        (r.latitude.isSome = true ∧ r.longitude.isSome = true →
          r'.latitude = r.latitude ∧ r'.longitude = r.longitude)
    | some _, none => False
    | none, _ => True

/-- Replaying a write log against a starting cache. -/
def applyWrites (c : List (String × CacheRec))
    (ws : List (String × CacheRec)) : List (String × CacheRec) :=
  ws.foldl (fun c w => setA c w.1 w.2) c

/-- Every write in the log is a `cacheMonoStep` against the cache state
reached by replaying the preceding writes. -/
def SafeWrites (c : List (String × CacheRec)) :
    List (String × CacheRec) → Prop
  | [] => True
  | w :: ws => cacheMonoStep c (setA c w.1 w.2) ∧ SafeWrites (setA c w.1 w.2) ws

theorem cacheMonoStep_refl (c : List (String × CacheRec)) : cacheMonoStep c c := by
  intro k
  cases h : lookupA c k <;> simp [h]

/-- Writing a fresh key is monotone. -/
theorem cacheMonoStep_new {c : List (String × CacheRec)} {k : String}
    {v : CacheRec} (h : lookupA c k = none) : cacheMonoStep c (setA c k v) := by
  intro k'
  by_cases hk : k' = k
  · subst hk
    simp [h]
  · rw [lookupA_setA_ne c k k' v hk]
    cases h' : lookupA c k' <;> simp [h']

/-- The geocode-backfill merge is monotone whenever its guard admits it
(i.e. at least one cached coordinate is missing). -/
theorem cacheMonoStep_merge {c : List (String × CacheRec)} {k : String}
    {r : CacheRec}
    (hg : (((lookupA c k).getD {}).latitude.isSome &&
        ((lookupA c k).getD {}).longitude.isSome) = false) :
    cacheMonoStep c (setA c k (mergeCacheRec ((lookupA c k).getD {}) r)) := by
  intro k'
  by_cases hk : k' = k
  · subst hk
    cases h : lookupA c k' with
    | none => simp [h]
    | some r0 =>
      rw [lookupA_setA_self]
      rw [h] at hg
      simp only [Option.getD_some] at hg
      simp only [h, Option.getD_some]
      refine ⟨?_, ?_, ?_, ?_, ?_⟩
      · intro ht
        simp [mergeCacheRec, pyOrS, ht]
      · intro ht
        simp [mergeCacheRec, pyOrS, ht]
      · intro ht
        simp [mergeCacheRec, pyOrS, ht]
      · intro ht
        simp [mergeCacheRec, pyOrS, ht]
      · intro hq
        exfalso
        rw [hq.1, hq.2] at hg
        simp at hg
  · rw [lookupA_setA_ne c k k' _ hk]
    cases h' : lookupA c k' <;> simp [h']

theorem safeWrites_append (ws1 : List (String × CacheRec)) :
    ∀ (c : List (String × CacheRec)) (ws2 : List (String × CacheRec)),
      SafeWrites c (ws1 ++ ws2) ↔
        SafeWrites c ws1 ∧ SafeWrites (applyWrites c ws1) ws2 := by
  induction ws1 with
  | nil => intro c ws2; simp [SafeWrites, applyWrites]
  | cons w t ih =>
    intro c ws2
    constructor
    · rintro ⟨h1, h2⟩
      have h2' : SafeWrites (setA c w.1 w.2) (t ++ ws2) := h2
      rw [ih] at h2'
      exact ⟨⟨h1, h2'.1⟩, by simpa [applyWrites] using h2'.2⟩
    · rintro ⟨⟨h1, h2⟩, h3⟩
      refine ⟨h1, ?_⟩
      show SafeWrites (setA c w.1 w.2) (t ++ ws2)
      rw [ih]
      exact ⟨h2, by simpa [applyWrites] using h3⟩

theorem safeWrites_chain (ws : List (String × CacheRec)) :
    ∀ (c : List (String × CacheRec)), SafeWrites c ws →
      List.Chain' cacheMonoStep (ws.scanl (fun c w => setA c w.1 w.2) c) := by
  induction ws with
  | nil => intro c _; simp
  | cons w t ih =>
    intro c h
    rw [List.scanl_cons]
    rcases h with ⟨h1, h2⟩
    have := ih (setA c w.1 w.2) h2
    rw [List.singleton_append, List.chain'_cons']
    refine ⟨?_, this⟩
    intro b hb
    rcases t with _ | ⟨w2, t2⟩
    · simp at hb
      subst hb
      exact h1
    · rw [List.scanl_cons] at hb
      simp at hb
      subst hb
      exact h1

theorem lookupA_mem {α : Type} {k : String} {v : α} :
    ∀ {l : List (String × α)}, lookupA l k = some v → (k, v) ∈ l := by
  intro l
  induction l with
  | nil => intro h; simp [lookupA] at h
  | cons p t ih =>
    rcases p with ⟨p1, p2⟩
    intro h
    by_cases hp : p1 = k
    · simp only [lookupA, if_pos hp] at h
      have h2 : p2 = v := Option.some.inj h
      subst hp
      subst h2
      exact List.mem_cons_self _ _
    · simp only [lookupA, if_neg hp] at h
      exact List.mem_cons_of_mem _ (ih h)

theorem lookupA_isSome_iff_mem {α : Type} (l : List (String × α)) (k : String) :
    (lookupA l k).isSome = true ↔ k ∈ l.map Prod.fst := by
  induction l with
  | nil => simp [lookupA]
  | cons p t ih =>
    by_cases hp : p.1 = k
    · simp [lookupA, hp]
    · have hkp : ¬k = p.1 := fun he => hp he.symm
      simp [lookupA, hp, ih, hkp]

theorem pushAt_values_ne {α : Type} {l : List (String × List α)} (k : String)
    (x : α) (h : ∀ p ∈ l, p.2 ≠ []) : ∀ p ∈ pushAt l k x, p.2 ≠ [] := by
  induction l with
  | nil =>
    intro p hp
    simp [pushAt] at hp
    simp [hp]
  | cons q t ih =>
    intro p hp
    by_cases hq : q.1 = k
    · simp only [pushAt, if_pos hq] at hp
      rcases List.mem_cons.mp hp with hp | hp
      · subst hp
        simp
      · exact h p (List.mem_cons_of_mem _ hp)
    · simp only [pushAt, if_neg hq] at hp
      rcases List.mem_cons.mp hp with hp | hp
      · subst hp
        exact h q (by simp)
      · exact ih (fun r hr => h r (List.mem_cons_of_mem _ hr)) p hp

theorem isSome_lookupA_pushAt {α : Type} (l : List (String × List α))
    (k k' : String) (x : α) (h : (lookupA l k).isSome = true) :
    (lookupA (pushAt l k' x) k).isSome = true := by
  by_cases hk : k = k'
  · subst hk
    rw [lookupA_pushAt_self]
    rfl
  · rw [lookupA_pushAt_ne l k' k x hk]
    exact h

/-- A successful `resolvePlaceStep` entails a deterministic resolution for
the location (given a places-cache key set that is sound for `geoRes`). -/
theorem resolve_some_geoRes {pc0 : List (String × CacheRec)}
    {geoNet : String → Option CacheRec} {pcKeys : List String} {calls : Nat}
    {loc : String} {r : CacheRec}
    (hsound : ∀ k ∈ pcKeys, (geoRes pc0 geoNet k).isSome = true)
    (h : (resolvePlaceStep pc0 geoNet pcKeys calls loc).1 = some r) :
    (geoRes pc0 geoNet loc).isSome = true := by
  unfold resolvePlaceStep at h
  by_cases hc : pcKeys.contains loc
  · rw [if_pos hc] at h
    replace h : geoRes pc0 geoNet loc = some r := h
    simp [h]
  · rw [if_neg hc] at h
    cases hn : geoNet loc with
    | none => simp [hn] at h
    | some g =>
      unfold geoRes
      cases hp : lookupA pc0 loc <;> simp [hn]

/-- A failed `resolvePlaceStep` entails a deterministically failing
resolution (given soundness and completeness of the places-cache key set). -/
theorem resolve_none_geoRes {pc0 : List (String × CacheRec)}
    {geoNet : String → Option CacheRec} {pcKeys : List String} {calls : Nat}
    {loc : String}
    (hsound : ∀ k ∈ pcKeys, (geoRes pc0 geoNet k).isSome = true)
    (hsup : ∀ k : String, (lookupA pc0 k).isSome = true → k ∈ pcKeys)
    (h : (resolvePlaceStep pc0 geoNet pcKeys calls loc).1 = none) :
    (geoRes pc0 geoNet loc).isSome = false := by
  unfold resolvePlaceStep at h
  by_cases hc : pcKeys.contains loc
  · rw [if_pos hc] at h
    replace h : geoRes pc0 geoNet loc = none := h
    simp [h]
  · rw [if_neg hc] at h
    cases hn : geoNet loc with
    | some g => simp [hn] at h
    | none =>
      unfold geoRes
      cases hp : lookupA pc0 loc with
      | some g =>
        exfalso
        have hmem := hsup loc (by simp [hp])
        exact hc (List.elem_eq_true_of_mem hmem)
      | none => simp [hn]

/-- A failed `resolvePlaceStep` leaves the places-cache key set unchanged. -/
theorem resolve_none_pcKeys {pc0 : List (String × CacheRec)}
    {geoNet : String → Option CacheRec} {pcKeys : List String} {calls : Nat}
    {loc : String}
    (h : (resolvePlaceStep pc0 geoNet pcKeys calls loc).1 = none) :
    (resolvePlaceStep pc0 geoNet pcKeys calls loc).2.1 = pcKeys := by
  unfold resolvePlaceStep at h ⊢
  by_cases hc : pcKeys.contains loc
  · rw [if_pos hc]
  · rw [if_neg hc] at h ⊢
    cases hn : geoNet loc with
    | some g => simp [hn] at h
    | none => simp [hn]

/-- Any key of the updated places-cache key set either was there or was just
resolved over the network. -/
theorem resolve_pcKeys_mem {pc0 : List (String × CacheRec)}
    {geoNet : String → Option CacheRec} {pcKeys : List String} {calls : Nat}
    {loc : String} {k : String}
    (h : k ∈ (resolvePlaceStep pc0 geoNet pcKeys calls loc).2.1) :
    k ∈ pcKeys ∨ (k = loc ∧ (geoNet loc).isSome = true) := by
  unfold resolvePlaceStep at h
  by_cases hc : pcKeys.contains loc
  · rw [if_pos hc] at h
    exact Or.inl h
  · rw [if_neg hc] at h
    cases hn : geoNet loc with
    | none => rw [hn] at h; exact Or.inl h
    | some g =>
      rw [hn] at h
      rcases List.mem_append.mp h with h | h
      · exact Or.inl h
      · simp at h
        exact Or.inr ⟨h, by simp [hn]⟩

/-- Extending a safe write log by one write that is monotone against the
current (replayed) cache. -/
theorem safeWrites_snoc {cache0 c : List (String × CacheRec)}
    {ws : List (String × CacheRec)} {k : String} {v : CacheRec}
    (hsafe : SafeWrites cache0 ws) (hc : c = applyWrites cache0 ws)
    (hm : cacheMonoStep c (setA c k v)) :
    SafeWrites cache0 (ws ++ [(k, v)]) := by
  rw [safeWrites_append]
  refine ⟨hsafe, ?_⟩
  rw [← hc]
  exact ⟨hm, trivial⟩

theorem applyWrites_snoc (cache0 : List (String × CacheRec))
    (ws : List (String × CacheRec)) (k : String) (v : CacheRec) :
    applyWrites cache0 (ws ++ [(k, v)]) = setA (applyWrites cache0 ws) k v := by
  simp [applyWrites, List.foldl_append]

theorem geoRes_isSome_of_geoNet {pc0 : List (String × CacheRec)}
    {geoNet : String → Option CacheRec} {loc : String}
    (h : (geoNet loc).isSome = true) : (geoRes pc0 geoNet loc).isSome = true := by
  unfold geoRes
  cases hp : lookupA pc0 loc <;> simp_all

theorem resolve_pcKeys_sup {pc0 : List (String × CacheRec)}
    {geoNet : String → Option CacheRec} {pcKeys : List String} {calls : Nat}
    {loc : String} {k : String} (h : k ∈ pcKeys) :
    k ∈ (resolvePlaceStep pc0 geoNet pcKeys calls loc).2.1 := by
  unfold resolvePlaceStep
  by_cases hc : pcKeys.contains loc
  · rw [if_pos hc]
    exact h
  · rw [if_neg hc]
    cases hn : geoNet loc with
    | none => exact h
    | some g => exact List.mem_append_left _ h

/-- The phase-1 loop invariant of `enrich_all_events` (over the events still
to be processed, `rem`): the cache is the replay of a safe write log; every
queued prompt item is bound (via `event_location_lookup`) to a dedup key
that is still unresolved in the cache, already recorded in
`seen_locations`, and not resolvable by the Places bypass; item keys are
injective in item ids, item ids are distinct and disjoint from the ids
still to be processed; seen-lists are nonempty; and the places-cache key
set is sound and complete for `geoRes`. -/
structure P1 (cache0 : List (String × CacheRec)) (gk : Bool)
    (pc0 : List (String × CacheRec)) (geoNet : String → Option CacheRec)
    (rem : List NormalizedEvent) (st : EnrichState) : Prop where
  wcons : st.cache = applyWrites cache0 st.writes
  safe : SafeWrites cache0 st.writes
  items : ∀ it ∈ st.unique_events, ∃ k,
    lookupA st.event_location_lookup it.event_id = some k ∧
      lookupA st.cache k = none ∧
      (lookupA st.seen_locations k).isSome = true ∧
      ¬(gk = true ∧ looks_like_maps_url k = true ∧
          (geoRes pc0 geoNet k).isSome = true)
  keyInj : ∀ it ∈ st.unique_events, ∀ it' ∈ st.unique_events, ∀ k k',
    lookupA st.event_location_lookup it.event_id = some k →
    lookupA st.event_location_lookup it'.event_id = some k' →
    it.event_id ≠ it'.event_id → k ≠ k'
  idsNodup : (st.unique_events.map PromptItem.event_id).Nodup
  idsFresh : ∀ it ∈ st.unique_events, ∀ e ∈ rem, it.event_id ≠ e.id
  seenNE : ∀ p ∈ st.seen_locations, p.2 ≠ []
  pcSound : ∀ k ∈ st.pcKeys, (geoRes pc0 geoNet k).isSome = true
  pcSup : ∀ k : String, (lookupA pc0 k).isSome = true → k ∈ st.pcKeys

theorem P1_weaken {cache0 : List (String × CacheRec)} {gk : Bool}
    {pc0 : List (String × CacheRec)} {geoNet : String → Option CacheRec}
    {e : NormalizedEvent} {rem : List NormalizedEvent} {st : EnrichState}
    (h : P1 cache0 gk pc0 geoNet (e :: rem) st) :
    P1 cache0 gk pc0 geoNet rem st :=
  ⟨h.wcons, h.safe, h.items, h.keyInj, h.idsNodup,
    fun it hi e' he' => h.idsFresh it hi e' (List.mem_cons_of_mem _ he'),
    h.seenNE, h.pcSound, h.pcSup⟩

/-- `enrichQueue` (geocode-target bookkeeping plus representative-item
queueing) preserves the phase-1 invariant, on top of the seen/event-location
update of the current event, for any miss key that the bypass cannot
resolve. -/
theorem P1_enrichQueue {cache0 : List (String × CacheRec)} {gk : Bool}
    {pc0 : List (String × CacheRec)} {geoNet : String → Option CacheRec}
    {e : NormalizedEvent} {rem : List NormalizedEvent} {st : EnrichState}
    {loc : String} {pks : List String} {n : Nat}
    (h : P1 cache0 gk pc0 geoNet (e :: rem) st)
    (hfresh : ∀ e' ∈ rem, e.id ≠ e'.id)
    (hmiss : lookupA st.cache loc = none)
    (hnb : ¬(gk = true ∧ looks_like_maps_url loc = true ∧
        (geoRes pc0 geoNet loc).isSome = true))
    (hsound : ∀ k ∈ pks, (geoRes pc0 geoNet k).isSome = true)
    (hsup : ∀ k : String, (lookupA pc0 k).isSome = true → k ∈ pks) :
    P1 cache0 gk pc0 geoNet rem
      (enrichQueue gk
        { st with
          seen_locations := pushAt st.seen_locations loc e.id
          event_location_lookup := setA st.event_location_lookup e.id loc
          pcKeys := pks, geoCalls := n } e loc) := by
  have hidne : ∀ it ∈ st.unique_events, it.event_id ≠ e.id :=
    fun it hi => h.idsFresh it hi e (by simp)
  have hfresh' : ∀ it ∈ st.unique_events, ∀ e' ∈ rem, it.event_id ≠ e'.id :=
    fun it hi e' he' => h.idsFresh it hi e' (List.mem_cons_of_mem _ he')
  have hitems : ∀ it ∈ st.unique_events, ∃ k,
      lookupA (setA st.event_location_lookup e.id loc) it.event_id = some k ∧
        lookupA st.cache k = none ∧
        (lookupA (pushAt st.seen_locations loc e.id) k).isSome = true ∧
        ¬(gk = true ∧ looks_like_maps_url k = true ∧
            (geoRes pc0 geoNet k).isSome = true) := by
    intro it hi
    obtain ⟨k, h1, h2, h3, h4⟩ := h.items it hi
    refine ⟨k, ?_, h2, isSome_lookupA_pushAt _ _ _ _ h3, h4⟩
    rw [lookupA_setA_ne _ _ _ _ (hidne it hi)]
    exact h1
  have hki : ∀ it ∈ st.unique_events, ∀ it' ∈ st.unique_events, ∀ k k',
      lookupA (setA st.event_location_lookup e.id loc) it.event_id = some k →
      lookupA (setA st.event_location_lookup e.id loc) it'.event_id = some k' →
      it.event_id ≠ it'.event_id → k ≠ k' := by
    intro it hi it' hi' k k' h1 h2 hne
    rw [lookupA_setA_ne _ _ _ _ (hidne it hi)] at h1
    rw [lookupA_setA_ne _ _ _ _ (hidne it' hi')] at h2
    exact h.keyInj it hi it' hi' k k' h1 h2 hne
  have hsn : ∀ p ∈ pushAt st.seen_locations loc e.id, p.2 ≠ [] :=
    pushAt_values_ne loc e.id h.seenNE
  have hnoappend : ∀ gt : List String,
      P1 cache0 gk pc0 geoNet rem
        { lookup := st.lookup, cache := st.cache
          seen_locations := pushAt st.seen_locations loc e.id
          event_location_lookup := setA st.event_location_lookup e.id loc
          geocode_targets := gt, unique_events := st.unique_events
          pcKeys := pks, geoCalls := n, writes := st.writes } :=
    fun gt =>
      ⟨h.wcons, h.safe, hitems, hki, h.idsNodup, hfresh', hsn, hsound, hsup⟩
  have happend : ∀ gt : List String,
      ((lookupA (pushAt st.seen_locations loc e.id) loc).getD []).length = 1 →
      P1 cache0 gk pc0 geoNet rem
        { lookup := st.lookup, cache := st.cache
          seen_locations := pushAt st.seen_locations loc e.id
          event_location_lookup := setA st.event_location_lookup e.id loc
          geocode_targets := gt
          unique_events := st.unique_events ++ [mkPromptItem e loc]
          pcKeys := pks, geoCalls := n, writes := st.writes } := by
    intro gt hlen
    rw [lookupA_pushAt_self] at hlen
    simp only [Option.getD_some, List.length_append, List.length_singleton] at hlen
    have hpre : lookupA st.seen_locations loc = none := by
      cases hx : lookupA st.seen_locations loc with
      | none => rfl
      | some xs =>
        exfalso
        rw [hx] at hlen
        simp only [Option.getD_some] at hlen
        have hxe : xs = [] := by
          cases xs with
          | nil => rfl
          | cons a b => simp at hlen
        exact h.seenNE (loc, xs) (lookupA_mem hx) (by simp [hxe])
    have hkeyne : ∀ it ∈ st.unique_events, ∀ k,
        lookupA st.event_location_lookup it.event_id = some k → k ≠ loc := by
      intro it hi k h1 hke
      obtain ⟨k', h1', _, h3', _⟩ := h.items it hi
      rw [h1] at h1'
      cases Option.some.inj h1'
      rw [hke, hpre] at h3'
      simp at h3'
    refine ⟨h.wcons, h.safe, ?_, ?_, ?_, ?_, hsn, hsound, hsup⟩
    · intro it hi
      rcases List.mem_append.mp hi with hi | hi
      · exact hitems it hi
      · simp only [List.mem_singleton] at hi
        subst hi
        refine ⟨loc, ?_, hmiss, ?_, hnb⟩
        · exact lookupA_setA_self _ _ _
        · rw [lookupA_pushAt_self]
          rfl
    · intro it hi it' hi' k k' h1 h2 hne
      rcases List.mem_append.mp hi with hi | hi <;>
        rcases List.mem_append.mp hi' with hi' | hi'
      · exact hki it hi it' hi' k k' h1 h2 hne
      · simp only [List.mem_singleton] at hi'
        subst hi'
        rw [show (mkPromptItem e loc).event_id = e.id from rfl,
          lookupA_setA_self] at h2
        cases Option.some.inj h2
        rw [lookupA_setA_ne _ _ _ _ (hidne it hi)] at h1
        exact hkeyne it hi k h1
      · simp only [List.mem_singleton] at hi
        subst hi
        rw [show (mkPromptItem e loc).event_id = e.id from rfl,
          lookupA_setA_self] at h1
        cases Option.some.inj h1
        rw [lookupA_setA_ne _ _ _ _ (hidne it' hi')] at h2
        exact fun hee => hkeyne it' hi' k' h2 hee.symm
      · simp only [List.mem_singleton] at hi hi'
        subst hi
        subst hi'
        exact absurd rfl hne
    · simp only [List.map_append, List.map_cons, List.map_nil]
      rw [List.nodup_append]
      refine ⟨h.idsNodup, by simp, ?_⟩
      intro a ha
      simp only [List.mem_singleton]
      intro hb
      subst hb
      obtain ⟨it, hit, hide⟩ := List.mem_map.mp ha
      exact hidne it hit (by simp [mkPromptItem] at hide ⊢; exact hide)
    · intro it hi e' he'
      rcases List.mem_append.mp hi with hi | hi
      · exact hfresh' it hi e' he'
      · simp only [List.mem_singleton] at hi
        subst hi
        exact hfresh e' he'
  unfold enrichQueue
  dsimp only
  split
  · split
    · next hlen => exact happend _ hlen
    · exact hnoappend _
  · split
    · next hlen => exact happend _ hlen
    · exact hnoappend _

/-- After recording the current event in `seen_locations` and
`event_location_lookup`, the queued items' facts still hold. -/
theorem P1_located_facts {cache0 : List (String × CacheRec)} {gk : Bool}
    {pc0 : List (String × CacheRec)} {geoNet : String → Option CacheRec}
    {e : NormalizedEvent} {rem : List NormalizedEvent} {st : EnrichState}
    (h : P1 cache0 gk pc0 geoNet (e :: rem) st) (loc : String) :
    (∀ it ∈ st.unique_events, ∃ k,
        lookupA (setA st.event_location_lookup e.id loc) it.event_id = some k ∧
          lookupA st.cache k = none ∧
          (lookupA (pushAt st.seen_locations loc e.id) k).isSome = true ∧
          ¬(gk = true ∧ looks_like_maps_url k = true ∧
              (geoRes pc0 geoNet k).isSome = true)) ∧
      (∀ it ∈ st.unique_events, ∀ it' ∈ st.unique_events, ∀ k k',
        lookupA (setA st.event_location_lookup e.id loc) it.event_id = some k →
        lookupA (setA st.event_location_lookup e.id loc) it'.event_id = some k' →
        it.event_id ≠ it'.event_id → k ≠ k') ∧
      (∀ p ∈ pushAt st.seen_locations loc e.id, p.2 ≠ []) := by
  have hidne : ∀ it ∈ st.unique_events, it.event_id ≠ e.id :=
    fun it hi => h.idsFresh it hi e (by simp)
  refine ⟨?_, ?_, pushAt_values_ne loc e.id h.seenNE⟩
  · intro it hi
    obtain ⟨k, h1, h2, h3, h4⟩ := h.items it hi
    refine ⟨k, ?_, h2, isSome_lookupA_pushAt _ _ _ _ h3, h4⟩
    rw [lookupA_setA_ne _ _ _ _ (hidne it hi)]
    exact h1
  · intro it hi it' hi' k k' h1 h2 hne
    rw [lookupA_setA_ne _ _ _ _ (hidne it hi)] at h1
    rw [lookupA_setA_ne _ _ _ _ (hidne it' hi')] at h2
    exact h.keyInj it hi it' hi' k k' h1 h2 hne

/-- A located event's step that does not touch the cache, the item list, or
the places-cache keys preserves the invariant (covers the cache-hit path,
for any new lookup/targets/call-count values). -/
theorem P1_untouched {cache0 : List (String × CacheRec)} {gk : Bool}
    {pc0 : List (String × CacheRec)} {geoNet : String → Option CacheRec}
    {e : NormalizedEvent} {rem : List NormalizedEvent} {st : EnrichState}
    (h : P1 cache0 gk pc0 geoNet (e :: rem) st) (loc : String)
    (lk : List (String × LocationEnrichment)) (gt : List String) (n : Nat) :
    P1 cache0 gk pc0 geoNet rem
      { lookup := lk, cache := st.cache
        seen_locations := pushAt st.seen_locations loc e.id
        event_location_lookup := setA st.event_location_lookup e.id loc
        geocode_targets := gt, unique_events := st.unique_events
        pcKeys := st.pcKeys, geoCalls := n, writes := st.writes } := by
  obtain ⟨f1, f2, f3⟩ := P1_located_facts h loc
  exact ⟨h.wcons, h.safe, f1, f2, h.idsNodup,
    fun it hi e' he' => h.idsFresh it hi e' (List.mem_cons_of_mem _ he'),
    f3, h.pcSound, h.pcSup⟩

/-- One step of the dedup/cache/bypass loop preserves the invariant. -/
theorem P1_step {cache0 : List (String × CacheRec)} {gk : Bool}
    {pc0 : List (String × CacheRec)} {geoNet : String → Option CacheRec}
    {e : NormalizedEvent} {rem : List NormalizedEvent} {st : EnrichState}
    (h : P1 cache0 gk pc0 geoNet (e :: rem) st)
    (hfresh : ∀ e' ∈ rem, e.id ≠ e'.id) :
    P1 cache0 gk pc0 geoNet rem (enrichStep gk pc0 geoNet st e) := by
  unfold enrichStep
  split
  · exact P1_weaken h
  · next raw heqr =>
    dsimp only
    split
    · exact P1_weaken h
    · split
      · exact P1_weaken h
      · split
        · -- cache hit
          try dsimp only
          split
          · exact P1_untouched h _ _ _ _
          · exact P1_untouched h _ _ _ _
        · -- cache miss
          next hmiss =>
          split
          · -- Places bypass attempted
            next hgk =>
            try dsimp only
            split
            · -- bypass succeeded: the key is fully resolved and cached
              next r hr =>
              obtain ⟨f1, f2, f3⟩ := P1_located_facts h (pyStrip raw)
              have hok : (geoRes pc0 geoNet (pyStrip raw)).isSome = true :=
                resolve_some_geoRes h.pcSound hr
              refine ⟨?_, ?_, ?_, f2, h.idsNodup,
                fun it hi e' he' => h.idsFresh it hi e' (List.mem_cons_of_mem _ he'),
                f3, ?_, ?_⟩
              · show setA st.cache _ _ = _
                dsimp only [cacheWrite]
                rw [applyWrites_snoc, h.wcons]
              · exact safeWrites_snoc h.safe h.wcons (cacheMonoStep_new hmiss)
              · intro it hi
                obtain ⟨k, h1, h2, h3, h4⟩ := f1 it hi
                refine ⟨k, h1, ?_, h3, h4⟩
                have hkne : k ≠ pyStrip raw := by
                  intro hke
                  subst hke
                  have hg2 : gk = true ∧ looks_like_maps_url (pyStrip raw) = true := by
                    simpa using hgk
                  exact h4 ⟨hg2.1, hg2.2, hok⟩
                dsimp only [cacheWrite]
                rw [lookupA_setA_ne _ _ _ _ hkne]
                exact h2
              · intro k hk
                rcases resolve_pcKeys_mem hk with hk | ⟨hke, hg⟩
                · exact h.pcSound k hk
                · subst hke
                  exact geoRes_isSome_of_geoNet hg
              · intro k hk
                exact resolve_pcKeys_sup (h.pcSup k hk)
            · -- bypass failed: fall through to the queueing tail
              next hr =>
              refine P1_enrichQueue h hfresh hmiss ?_ ?_ ?_
              · intro hcon
                have hnone := resolve_none_geoRes h.pcSound h.pcSup hr
                rw [hcon.2.2] at hnone
                exact absurd hnone (by decide)
              · rw [resolve_none_pcKeys hr]
                exact h.pcSound
              · rw [resolve_none_pcKeys hr]
                exact h.pcSup
          · -- no bypass attempt
            next hgk =>
            refine P1_enrichQueue h hfresh hmiss ?_ h.pcSound h.pcSup
            intro hcon
            exact hgk (by rw [hcon.1, hcon.2.1]; rfl)

theorem P1_init (cache0 : List (String × CacheRec)) (gk : Bool)
    (pc0 : List (String × CacheRec)) (geoNet : String → Option CacheRec)
    (events : List NormalizedEvent) :
    P1 cache0 gk pc0 geoNet events (initEnrichState cache0 pc0) := by
  refine ⟨rfl, trivial, ?_, ?_, ?_, ?_, ?_, ?_, ?_⟩
  · intro it hi
    simp [initEnrichState] at hi
  · intro it hi
    simp [initEnrichState] at hi
  · simp [initEnrichState]
  · intro it hi
    simp [initEnrichState] at hi
  · intro p hp
    simp [initEnrichState] at hp
  · intro k hk
    simp only [initEnrichState] at hk
    have : (lookupA pc0 k).isSome = true :=
      (lookupA_isSome_iff_mem pc0 k).mpr hk
    unfold geoRes
    cases hp : lookupA pc0 k with
    | none => rw [hp] at this; simp at this
    | some g => simp
  · intro k hk
    simp only [initEnrichState]
    exact (lookupA_isSome_iff_mem pc0 k).mp hk

theorem P1_fold {cache0 : List (String × CacheRec)} {gk : Bool}
    {pc0 : List (String × CacheRec)} {geoNet : String → Option CacheRec} :
    ∀ (events : List NormalizedEvent) (st : EnrichState),
      (events.map NormalizedEvent.id).Nodup →
      P1 cache0 gk pc0 geoNet events st →
      P1 cache0 gk pc0 geoNet []
        (events.foldl (enrichStep gk pc0 geoNet) st) := by
  intro events
  induction events with
  | nil => intro st _ h; exact h
  | cons e t ih =>
    intro st hnd h
    simp only [List.foldl_cons]
    simp only [List.map_cons, List.nodup_cons] at hnd
    have hfresh : ∀ e' ∈ t, e.id ≠ e'.id := by
      intro e' he' heq
      exact hnd.1 (List.mem_map.mpr ⟨e', he', heq.symm⟩)
    exact ih _ hnd.2 (P1_step h hfresh)

/-- The LLM merge loop: given that every result's key is still unresolved
and result keys are pairwise distinct, the write log stays safe (and the
event-location table is untouched). -/
theorem phase2_safe {cache0 : List (String × CacheRec)}
    (el : List (String × String)) :
    ∀ (rs : List LocationEnrichment) (st : EnrichState),
      st.event_location_lookup = el →
      st.cache = applyWrites cache0 st.writes →
      SafeWrites cache0 st.writes →
      (∀ r ∈ rs, ∀ k, lookupA el r.event_id = some k →
          lookupA st.cache k = none) →
      List.Pairwise
        (fun r r' : LocationEnrichment => ∀ k k',
          lookupA el r.event_id = some k →
          lookupA el r'.event_id = some k' → k ≠ k') rs →
      ((rs.foldl enrichMergeStep st).event_location_lookup = el ∧
        (rs.foldl enrichMergeStep st).cache =
          applyWrites cache0 (rs.foldl enrichMergeStep st).writes ∧
        SafeWrites cache0 (rs.foldl enrichMergeStep st).writes) := by
  intro rs
  induction rs with
  | nil => intro st h1 h2 h3 _ _; exact ⟨h1, h2, h3⟩
  | cons r t ih =>
    intro st hel hw hs habs hpw
    simp only [List.foldl_cons]
    have hpw2 := List.pairwise_cons.mp hpw
    cases hle : lookupA st.event_location_lookup r.event_id with
    | none =>
      have hstep : enrichMergeStep st r =
          { st with lookup := setA st.lookup r.event_id r } := by
        unfold enrichMergeStep
        dsimp only
        rw [hle]
      rw [hstep]
      exact ih _ hel hw hs
        (fun r' hr' k hk => habs r' (List.mem_cons_of_mem _ hr') k hk) hpw2.2
    | some loc =>
      have hlel : lookupA el r.event_id = some loc := hel ▸ hle
      by_cases hle0 : loc = ""
      · have hstep : enrichMergeStep st r =
            { st with lookup := setA st.lookup r.event_id r } := by
          unfold enrichMergeStep
          dsimp only
          rw [hle]
          dsimp only
          rw [if_pos hle0]
        rw [hstep]
        exact ih _ hel hw hs
          (fun r' hr' k hk => habs r' (List.mem_cons_of_mem _ hr') k hk) hpw2.2
      · have habs0 : lookupA st.cache loc = none := habs r (by simp) loc hlel
        have hstep : enrichMergeStep st r =
            cacheWrite { st with lookup := setA st.lookup r.event_id r } loc
              (cache_from_enrichment r) := by
          unfold enrichMergeStep
          dsimp only
          rw [hle]
          dsimp only
          rw [if_neg hle0]
        rw [hstep]
        apply ih
        · exact hel
        · dsimp only [cacheWrite]
          rw [applyWrites_snoc, hw]
        · exact safeWrites_snoc hs hw (cacheMonoStep_new habs0)
        · intro r' hr' k hk
          dsimp only [cacheWrite]
          have hkne : k ≠ loc :=
            fun hke => (hpw2.1 r' hr' loc k hlel hk) hke.symm
          rw [lookupA_setA_ne _ _ _ _ hkne]
          exact habs r' (List.mem_cons_of_mem _ hr') k hk
        · exact hpw2.2

/-- `propagateItem` only rewrites the lookup. -/
theorem propagateItem_eq (st : EnrichState) (it : PromptItem) :
    ∃ lk, propagateItem st it = { st with lookup := lk } := by
  unfold propagateItem
  refine foldl_pres (P := fun (s : EnrichState) =>
    ∃ lk, s = { st with lookup := lk }) ?_ _ st ⟨st.lookup, rfl⟩
  intro s eid hs
  obtain ⟨lk, rfl⟩ := hs
  dsimp only
  split
  · exact ⟨lk, rfl⟩
  · split
    · exact ⟨lk, rfl⟩
    · exact ⟨_, rfl⟩

/-- `enrichMergeStep` only rewrites the lookup, the cache and the write
log. -/
theorem enrichMergeStep_eq (st : EnrichState) (r : LocationEnrichment) :
    ∃ lk c w, enrichMergeStep st r =
      { st with lookup := lk, cache := c, writes := w } := by
  unfold enrichMergeStep
  dsimp only
  split
  · exact ⟨_, _, _, rfl⟩
  · split
    · exact ⟨_, _, _, rfl⟩
    · exact ⟨_, _, _, rfl⟩

/-- `backfillPatch` only rewrites the lookup. -/
theorem backfillPatch_eq (r : CacheRec) (st : EnrichState) (eid : String) :
    ∃ lk, backfillPatch r st eid = { st with lookup := lk } := by
  unfold backfillPatch
  split
  · exact ⟨_, rfl⟩
  · exact ⟨_, rfl⟩

/-- `backfillStep` leaves `seen_locations`, `event_location_lookup`,
`geocode_targets` and `unique_events` untouched. -/
theorem backfillStep_eq (pc0 : List (String × CacheRec))
    (geoNet : String → Option CacheRec) (st : EnrichState) (loc : String) :
    ∃ lk c pk n w, backfillStep pc0 geoNet st loc =
      { st with lookup := lk, cache := c, pcKeys := pk, geoCalls := n,
                writes := w } := by
  unfold backfillStep
  dsimp only
  split
  · exact ⟨_, _, _, _, _, rfl⟩
  · split
    · exact ⟨_, _, _, _, _, rfl⟩
    · split
      · exact ⟨_, _, _, _, _, rfl⟩
      · try dsimp only
        split
        · exact ⟨_, _, _, _, _, rfl⟩
        · next r _ =>
          refine foldl_pres (P := fun (s : EnrichState) =>
            ∃ lk c pk n w,
              s = { st with lookup := lk, cache := c, pcKeys := pk, geoCalls := n, writes := w }) ?_ _ _ ⟨_, _, _, _, _, rfl⟩
          intro s eid hs
          obtain ⟨lk, c, pk, n, w, rfl⟩ := hs
          obtain ⟨lk2, heq⟩ := backfillPatch_eq r _ eid
          rw [heq]
          exact ⟨_, _, _, _, _, rfl⟩

/-- One geocode-backfill step keeps the write log safe. -/
theorem backfillStep_safe {cache0 : List (String × CacheRec)}
    (pc0 : List (String × CacheRec)) (geoNet : String → Option CacheRec)
    (st : EnrichState) (loc : String)
    (hw : st.cache = applyWrites cache0 st.writes)
    (hs : SafeWrites cache0 st.writes) :
    ((backfillStep pc0 geoNet st loc).cache =
        applyWrites cache0 (backfillStep pc0 geoNet st loc).writes ∧
      SafeWrites cache0 (backfillStep pc0 geoNet st loc).writes) := by
  unfold backfillStep
  dsimp only
  split
  · exact ⟨hw, hs⟩
  · next hguard =>
    split
    · exact ⟨hw, hs⟩
    · split
      · exact ⟨hw, hs⟩
      · try dsimp only
        split
        · exact ⟨hw, hs⟩
        · next r _ =>
          have hg :
              ((((lookupA st.cache loc).getD {}).latitude.isSome &&
                ((lookupA st.cache loc).getD {}).longitude.isSome)) = false := by
            simpa using hguard
          refine foldl_pres (P := fun (s : EnrichState) =>
            s.cache = applyWrites cache0 s.writes ∧
              SafeWrites cache0 s.writes) ?_ _ _ ?_
          · intro s eid hs2
            obtain ⟨lk2, heq⟩ := backfillPatch_eq r s eid
            rw [heq]
            exact hs2
          · constructor
            · dsimp only [cacheWrite]
              rw [applyWrites_snoc, hw]
            · exact safeWrites_snoc hs hw (cacheMonoStep_merge hg)

/-- The geocode backfill keeps the write log safe. -/
theorem backfill_safe {cache0 : List (String × CacheRec)}
    (pc0 : List (String × CacheRec)) (geoNet : String → Option CacheRec) :
    ∀ (locs : List String) (st : EnrichState),
      st.cache = applyWrites cache0 st.writes →
      SafeWrites cache0 st.writes →
      ((locs.foldl (backfillStep pc0 geoNet) st).cache =
          applyWrites cache0 (locs.foldl (backfillStep pc0 geoNet) st).writes ∧
        SafeWrites cache0 (locs.foldl (backfillStep pc0 geoNet) st).writes) := by
  intro locs
  induction locs with
  | nil => intro st h1 h2; exact ⟨h1, h2⟩
  | cons loc t ih =>
    intro st hw hs
    simp only [List.foldl_cons]
    obtain ⟨h1, h2⟩ := @backfillStep_safe cache0 pc0 geoNet st loc hw hs
    exact ih _ h1 h2

theorem foldl_unique_merge :
    ∀ (rs : List LocationEnrichment) (s : EnrichState),
      (rs.foldl enrichMergeStep s).unique_events = s.unique_events := by
  intro rs
  induction rs with
  | nil => intro s; rfl
  | cons r t ih =>
    intro s
    rw [List.foldl_cons, ih]
    obtain ⟨lk, c, w, heq⟩ := enrichMergeStep_eq s r
    rw [heq]

theorem foldl_unique_prop :
    ∀ (its : List PromptItem) (s : EnrichState),
      (its.foldl propagateItem s).unique_events = s.unique_events := by
  intro its
  induction its with
  | nil => intro s; rfl
  | cons it t ih =>
    intro s
    rw [List.foldl_cons, ih]
    obtain ⟨lk, heq⟩ := propagateItem_eq s it
    rw [heq]

theorem foldl_unique_backfill (pc0 : List (String × CacheRec))
    (geoNet : String → Option CacheRec) :
    ∀ (locs : List String) (s : EnrichState),
      (locs.foldl (backfillStep pc0 geoNet) s).unique_events =
        s.unique_events := by
  intro locs
  induction locs with
  | nil => intro s; rfl
  | cons loc t ih =>
    intro s
    rw [List.foldl_cons, ih]
    obtain ⟨lk, c, pk, n, w, heq⟩ := backfillStep_eq pc0 geoNet s loc
    rw [heq]

/-- The prompt items reported by `enrich_all_events` are exactly those built
by its first (dedup) pass. -/
theorem run_unique_events (gk : Bool) (pc0 : List (String × CacheRec))
    (geoNet : String → Option CacheRec)
    (llm : List PromptItem → List LocationEnrichment)
    (cache0 : List (String × CacheRec)) (events : List NormalizedEvent) :
    (enrich_all_events gk pc0 geoNet llm cache0 events).unique_events =
      (enrichPhase1 gk pc0 geoNet cache0 events).unique_events := by
  unfold enrich_all_events
  dsimp only
  split
  · rfl
  · split
    · dsimp only [EnrichState.out]
      rw [foldl_unique_backfill, foldl_unique_prop, foldl_unique_merge]
    · dsimp only [EnrichState.out]
      rw [foldl_unique_prop, foldl_unique_merge]

/-- Propagation keeps the write log (and its replay) intact. -/
theorem prop_safe {cache0 : List (String × CacheRec)} :
    ∀ (its : List PromptItem) (s : EnrichState),
      s.cache = applyWrites cache0 s.writes → SafeWrites cache0 s.writes →
      ((its.foldl propagateItem s).cache =
          applyWrites cache0 (its.foldl propagateItem s).writes ∧
        SafeWrites cache0 (its.foldl propagateItem s).writes) := by
  intro its
  induction its with
  | nil => intro s h1 h2; exact ⟨h1, h2⟩
  | cons it t ih =>
    intro s h1 h2
    simp only [List.foldl_cons]
    obtain ⟨lk, heq⟩ := propagateItem_eq s it
    rw [heq]
    exact ih _ h1 h2

/-- C6 (amended): provided events have distinct ids and the resolver answers
only the prompt items it was sent (one result per item id, as the response
contract requires), every cache assignment performed during a run of
`enrich_all_events` — replayed in order from the starting cache — is
monotone: no write deletes a key; a non-coordinate field (venue_name,
neighborhood, city, cuisine) of an existing record that is non-empty is
never changed, in particular never set back to empty or null; and the
latitude/longitude of a record carrying both coordinates are never
modified, so coordinates can only be rewritten — by the geocode backfill,
possibly with a null resolved value — while at least one of them is
missing. -/
theorem c6_cache_merge_monotone (gk : Bool) (pc0 : List (String × CacheRec))
    (geoNet : String → Option CacheRec)
    (llm : List PromptItem → List LocationEnrichment)
    (cache0 : List (String × CacheRec)) (events : List NormalizedEvent)
    (hids : (events.map NormalizedEvent.id).Nodup)
    (hsub : ∀ r ∈
        llm (enrich_all_events gk pc0 geoNet llm cache0 events).unique_events,
        r.event_id ∈
          (enrich_all_events gk pc0 geoNet llm cache0
              events).unique_events.map PromptItem.event_id)
    (hnodup : ((llm (enrich_all_events gk pc0 geoNet llm cache0
        events).unique_events).map LocationEnrichment.event_id).Nodup) :
    List.Chain' cacheMonoStep
      ((enrich_all_events gk pc0 geoNet llm cache0 events).writes.scanl
        (fun c w => setA c w.1 w.2) cache0) := by
  have hp1 : P1 cache0 gk pc0 geoNet []
      (enrichPhase1 gk pc0 geoNet cache0 events) :=
    P1_fold events _ hids (P1_init cache0 gk pc0 geoNet events)
  rw [run_unique_events] at hsub hnodup
  set st1 := enrichPhase1 gk pc0 geoNet cache0 events with hst1
  apply safeWrites_chain
  have hrest : ∀ rs : List LocationEnrichment,
      (∀ r ∈ rs, r.event_id ∈ st1.unique_events.map PromptItem.event_id) →
      (rs.map LocationEnrichment.event_id).Nodup →
      ∀ (its : List PromptItem) (locs : List String),
        SafeWrites cache0
          ((if gk && !locs.isEmpty then
              locs.foldl (backfillStep pc0 geoNet)
                (its.foldl propagateItem (rs.foldl enrichMergeStep st1))
            else
              its.foldl propagateItem (rs.foldl enrichMergeStep st1)).writes) := by
    intro rs hc hn its locs
    have habs : ∀ r ∈ rs, ∀ k,
        lookupA st1.event_location_lookup r.event_id = some k →
        lookupA st1.cache k = none := by
      intro r hr k hk
      obtain ⟨it, hit, hid⟩ := List.mem_map.mp (hc r hr)
      obtain ⟨k', h1, h2, _, _⟩ := hp1.items it hit
      rw [hid, hk] at h1
      cases Option.some.inj h1
      exact h2
    have hpw : List.Pairwise
        (fun r r' : LocationEnrichment => ∀ k k',
          lookupA st1.event_location_lookup r.event_id = some k →
          lookupA st1.event_location_lookup r'.event_id = some k' → k ≠ k')
        rs := by
      have h0 : List.Pairwise
          (fun a b : LocationEnrichment => a.event_id ≠ b.event_id) rs :=
        List.pairwise_map.mp hn
      refine List.Pairwise.imp_of_mem ?_ h0
      intro r r' hr hr' hne k k' hk hk'
      obtain ⟨it, hit, hid⟩ := List.mem_map.mp (hc r hr)
      obtain ⟨it', hit', hid'⟩ := List.mem_map.mp (hc r' hr')
      apply hp1.keyInj it hit it' hit' k k' (by rw [hid]; exact hk)
        (by rw [hid']; exact hk')
      rw [hid, hid']
      exact hne
    obtain ⟨hel2, hw2, hs2⟩ := phase2_safe st1.event_location_lookup rs st1 rfl
      hp1.wcons hp1.safe habs hpw
    obtain ⟨hw3, hs3⟩ := prop_safe its _ hw2 hs2
    split
    · exact (backfill_safe pc0 geoNet locs _ hw3 hs3).2
    · exact hs3
  unfold enrich_all_events
  dsimp only
  rw [← hst1]
  cases hue : st1.unique_events with
  | nil =>
    cases hgt : st1.geocode_targets with
    | nil =>
      dsimp only [EnrichState.out]
      exact hp1.safe
    | cons g gs =>
      dsimp only [EnrichState.out]
      exact hrest [] (by intro r hr; simp at hr) (by simp) [] (g :: gs)
  | cons u us =>
    cases hgt : st1.geocode_targets with
    | nil =>
      dsimp only [EnrichState.out]
      exact hrest (llm (u :: us)) (by rw [hue]; rw [hue] at hsub; exact hsub)
        (by rw [hue] at hnodup; exact hnodup) (u :: us) []
    | cons g gs =>
      dsimp only [EnrichState.out]
      exact hrest (llm (u :: us)) (by rw [hue]; rw [hue] at hsub; exact hsub)
        (by rw [hue] at hnodup; exact hnodup) (u :: us) (g :: gs)

/-- Witness for the amended C6 claim: the merge-monotonicity of the cache
write log holds on a concrete one-event run. -/
theorem c6_cache_merge_monotone_witness :
    List.Chain' cacheMonoStep
      ((enrich_all_events false [] (fun _ => none) (fun _ => []) []
          [{ id := "w6", summary := some "Dinner", location_raw := some "Cafe X",
             date := "2024-01-01", duration_minutes := 60 }]).writes.scanl
        (fun c w => setA c w.1 w.2) []) :=
  c6_cache_merge_monotone false [] (fun _ => none) (fun _ => []) []
    [{ id := "w6", summary := some "Dinner", location_raw := some "Cafe X",
       date := "2024-01-01", duration_minutes := 60 }]
    (by decide) (by intro r hr; simp at hr) (by simp)

/-! ## Claim C7 (amended) — idempotence of the enrichment run -/

/-- The dedup key an event contributes (`llm_enrich.py:158-163`): its
stripped raw location, absent when the field is missing, empty, or
whitespace-only. -/
def keyOf (e : NormalizedEvent) : Option String :=
  match e.location_raw with
  | none => none
  | some raw =>
    if raw = "" then none
    else if pyStrip raw = "" then none else some (pyStrip raw)

/-- The ids of the events of `l` carrying dedup key `k`, in order. -/
def seenIds (l : List NormalizedEvent) (k : String) : List String :=
  l.filterMap fun e =>
    match keyOf e with
    | some k2 => if k2 = k then some e.id else none
    | none => none

/-- `enrichStep` specialised to `gk = false` (no Maps key configured): the
geocode-target bookkeeping and the Places bypass disappear. -/
def enrichStepF (st : EnrichState) (e : NormalizedEvent) : EnrichState :=
  match keyOf e with
  | none => st
  | some k =>
    let st :=
      { st with
        seen_locations := pushAt st.seen_locations k e.id
        event_location_lookup := setA st.event_location_lookup e.id k }
    match lookupA st.cache k with
    | some cached =>
      { st with
        lookup := setA st.lookup e.id
          (location_enrichment_from_cache e.id cached) }
    | none =>
      if ((lookupA st.seen_locations k).getD []).length = 1 then
        { st with unique_events := st.unique_events ++ [mkPromptItem e k] }
      else st

theorem enrichStep_false (pc0 : List (String × CacheRec))
    (geoNet : String → Option CacheRec) (st : EnrichState)
    (e : NormalizedEvent) :
    enrichStep false pc0 geoNet st e = enrichStepF st e := by
  unfold enrichStep enrichStepF keyOf enrichQueue
  cases hl : e.location_raw with
  | none => rfl
  | some raw =>
    by_cases h1 : raw = ""
    · simp [h1]
    · by_cases h2 : pyStrip raw = ""
      · simp [h1, h2]
      · simp only [h1, h2, if_false, Bool.false_and, if_true, ite_false]
        split
        · rfl
        · rfl

theorem seenIds_append (l1 l2 : List NormalizedEvent) (k : String) :
    seenIds (l1 ++ l2) k = seenIds l1 k ++ seenIds l2 k := by
  simp [seenIds, List.filterMap_append]

theorem seenIds_single_some {e : NormalizedEvent} {k : String}
    (h : keyOf e = some k) : seenIds [e] k = [e.id] := by
  simp [seenIds, h]

theorem seenIds_single_ne {e : NormalizedEvent} {k k2 : String}
    (h : keyOf e = some k2) (hne : k2 ≠ k) : seenIds [e] k = [] := by
  simp [seenIds, h, hne]

theorem seenIds_single_none {e : NormalizedEvent} {k : String}
    (h : keyOf e = none) : seenIds [e] k = [] := by
  simp [seenIds, h]

theorem seenIds_sound {l : List NormalizedEvent} {k : String} :
    ∀ eid ∈ seenIds l k, ∃ e ∈ l, e.id = eid ∧ keyOf e = some k := by
  intro eid h
  unfold seenIds at h
  obtain ⟨e, hel, hfe⟩ := List.mem_filterMap.mp h
  refine ⟨e, hel, ?_⟩
  cases hk : keyOf e with
  | none => rw [hk] at hfe; simp at hfe
  | some k2 =>
    rw [hk] at hfe
    by_cases hkk : k2 = k
    · subst hkk
      simp at hfe
      exact ⟨hfe, rfl⟩
    · simp [hkk] at hfe

theorem seenIds_mem {l : List NormalizedEvent} {k : String}
    {e : NormalizedEvent} (hel : e ∈ l) (hk : keyOf e = some k) :
    e.id ∈ seenIds l k :=
  List.mem_filterMap.mpr ⟨e, hel, by simp [hk]⟩

theorem seenIds_ne_nil {l : List NormalizedEvent} {k : String}
    (h : seenIds l k ≠ []) : ∃ e ∈ l, keyOf e = some k := by
  obtain ⟨eid, hmem⟩ := List.exists_mem_of_ne_nil _ h
  obtain ⟨e, hel, _, hk⟩ := seenIds_sound eid hmem
  exact ⟨e, hel, hk⟩

/-- Phase-1 invariant of a `gk = false` run: after processing the events of
`done` (pairwise-distinct ids) from the initial state, the cache, geocode
targets, call counter and write log are untouched, and the seen-locations,
event-location and enrichment-lookup tables are characterised pointwise. -/
structure Q1 (cache0 : List (String × CacheRec))
    (done : List NormalizedEvent) (st : EnrichState) : Prop where
  cacheC : st.cache = cache0
  gtC : st.geocode_targets = []
  gcC : st.geoCalls = 0
  wrC : st.writes = []
  seenN : ∀ k, seenIds done k = [] → lookupA st.seen_locations k = none
  seenS : ∀ k, seenIds done k ≠ [] →
    lookupA st.seen_locations k = some (seenIds done k)
  evlocS : ∀ e ∈ done, ∀ k, keyOf e = some k →
    lookupA st.event_location_lookup e.id = some k
  evlocD : ∀ eid, (lookupA st.event_location_lookup eid).isSome = true →
    ∃ e ∈ done, e.id = eid ∧ keyOf e ≠ none
  lkHit : ∀ e ∈ done, ∀ k c, keyOf e = some k → lookupA cache0 k = some c →
    lookupA st.lookup e.id = some (location_enrichment_from_cache e.id c)
  lkMiss : ∀ e ∈ done, ∀ k, keyOf e = some k → lookupA cache0 k = none →
    lookupA st.lookup e.id = none
  lkD : ∀ eid, (lookupA st.lookup eid).isSome = true →
    ∃ e ∈ done, e.id = eid ∧ ∃ k, keyOf e = some k ∧
      (lookupA cache0 k).isSome = true
  uniqS : ∀ e ∈ done, ∀ k, keyOf e = some k → lookupA cache0 k = none →
    ∃ rep ∈ done, keyOf rep = some k ∧ mkPromptItem rep k ∈ st.unique_events
  uniqD : ∀ it ∈ st.unique_events, ∃ rep ∈ done, ∃ k, keyOf rep = some k ∧
    lookupA cache0 k = none ∧ it = mkPromptItem rep k

theorem Q1_step {cache0 : List (String × CacheRec)}
    {done : List NormalizedEvent} {st : EnrichState}
    (h : Q1 cache0 done st) (e : NormalizedEvent)
    (hfresh : ∀ e' ∈ done, e'.id ≠ e.id) :
    Q1 cache0 (done ++ [e]) (enrichStepF st e) := by
  unfold enrichStepF
  cases hke : keyOf e with
  | none =>
    have hsi : ∀ k, seenIds (done ++ [e]) k = seenIds done k := fun k => by
      rw [seenIds_append, seenIds_single_none hke, List.append_nil]
    refine ⟨h.cacheC, h.gtC, h.gcC, h.wrC, ?_, ?_, ?_, ?_, ?_, ?_, ?_, ?_, ?_⟩
    · intro k hnil
      rw [hsi] at hnil
      exact h.seenN k hnil
    · intro k hne
      rw [hsi] at hne ⊢
      exact h.seenS k hne
    · intro e' he' k hk
      rcases List.mem_append.mp he' with he' | he'
      · exact h.evlocS e' he' k hk
      · rw [List.mem_singleton] at he'
        subst he'
        rw [hke] at hk
        cases hk
    · intro eid hsome
      obtain ⟨e', he', hid, hkn⟩ := h.evlocD eid hsome
      exact ⟨e', List.mem_append_left _ he', hid, hkn⟩
    · intro e' he' k c hk hc
      rcases List.mem_append.mp he' with he' | he'
      · exact h.lkHit e' he' k c hk hc
      · rw [List.mem_singleton] at he'
        subst he'
        rw [hke] at hk
        cases hk
    · intro e' he' k hk hc
      rcases List.mem_append.mp he' with he' | he'
      · exact h.lkMiss e' he' k hk hc
      · rw [List.mem_singleton] at he'
        subst he'
        rw [hke] at hk
        cases hk
    · intro eid hsome
      obtain ⟨e', he', rest⟩ := h.lkD eid hsome
      exact ⟨e', List.mem_append_left _ he', rest⟩
    · intro e' he' k hk hc
      rcases List.mem_append.mp he' with he' | he'
      · obtain ⟨rep, hrep, hrk, hmem⟩ := h.uniqS e' he' k hk hc
        exact ⟨rep, List.mem_append_left _ hrep, hrk, hmem⟩
      · rw [List.mem_singleton] at he'
        subst he'
        rw [hke] at hk
        cases hk
    · intro it hit
      obtain ⟨rep, hrep, k, hks⟩ := h.uniqD it hit
      exact ⟨rep, List.mem_append_left _ hrep, k, hks⟩
  | some k =>
    dsimp only
    have hsik : seenIds (done ++ [e]) k = seenIds done k ++ [e.id] := by
      rw [seenIds_append, seenIds_single_some hke]
    have hsine : ∀ k2, k2 ≠ k → seenIds (done ++ [e]) k2 = seenIds done k2 :=
      fun k2 hne => by
        rw [seenIds_append, seenIds_single_ne hke (fun hh => hne hh.symm),
          List.append_nil]
    have hgd : (lookupA st.seen_locations k).getD [] = seenIds done k := by
      by_cases hsd : seenIds done k = []
      · rw [h.seenN k hsd, hsd]
        rfl
      · rw [h.seenS k hsd]
        rfl
    have hseenN : ∀ k2, seenIds (done ++ [e]) k2 = [] →
        lookupA (pushAt st.seen_locations k e.id) k2 = none := by
      intro k2 hnil
      by_cases hk2 : k2 = k
      · subst hk2
        rw [hsik] at hnil
        simp at hnil
      · rw [hsine k2 hk2] at hnil
        rw [lookupA_pushAt_ne _ _ _ _ hk2]
        exact h.seenN k2 hnil
    have hseenS : ∀ k2, seenIds (done ++ [e]) k2 ≠ [] →
        lookupA (pushAt st.seen_locations k e.id) k2 =
          some (seenIds (done ++ [e]) k2) := by
      intro k2 hne2
      by_cases hk2 : k2 = k
      · subst hk2
        rw [lookupA_pushAt_self, hgd, hsik]
      · rw [hsine k2 hk2] at hne2 ⊢
        rw [lookupA_pushAt_ne _ _ _ _ hk2]
        exact h.seenS k2 hne2
    have hevlocS : ∀ e' ∈ done ++ [e], ∀ k2, keyOf e' = some k2 →
        lookupA (setA st.event_location_lookup e.id k) e'.id = some k2 := by
      intro e' he' k2 hk2
      rcases List.mem_append.mp he' with he' | he'
      · rw [lookupA_setA_ne _ _ _ _ (hfresh e' he')]
        exact h.evlocS e' he' k2 hk2
      · rw [List.mem_singleton] at he'
        subst he'
        rw [hke] at hk2
        cases hk2
        rw [lookupA_setA_self]
    have hevlocD : ∀ eid,
        (lookupA (setA st.event_location_lookup e.id k) eid).isSome = true →
        ∃ e' ∈ done ++ [e], e'.id = eid ∧ keyOf e' ≠ none := by
      intro eid hsome
      by_cases heid : eid = e.id
      · subst heid
        exact ⟨e, List.mem_append_right _ (List.mem_singleton.mpr rfl), rfl,
          by rw [hke]; simp⟩
      · rw [lookupA_setA_ne _ _ _ _ heid] at hsome
        obtain ⟨e', he', hid, hkn⟩ := h.evlocD eid hsome
        exact ⟨e', List.mem_append_left _ he', hid, hkn⟩
    have hlknone : lookupA st.lookup e.id = none := by
      cases hlk : lookupA st.lookup e.id with
      | none => rfl
      | some v =>
        obtain ⟨e'', he'', hid, _⟩ := h.lkD e.id (by rw [hlk]; rfl)
        exact absurd hid (hfresh e'' he'')
    rw [h.cacheC]
    cases hck : lookupA cache0 k with
    | some c =>
      dsimp only
      refine ⟨rfl, h.gtC, h.gcC, h.wrC, hseenN, hseenS, hevlocS,
        hevlocD, ?_, ?_, ?_, ?_, ?_⟩
      · intro e' he' k2 c2 hk2 hc2
        rcases List.mem_append.mp he' with he' | he'
        · rw [lookupA_setA_ne _ _ _ _ (hfresh e' he')]
          exact h.lkHit e' he' k2 c2 hk2 hc2
        · rw [List.mem_singleton] at he'
          subst he'
          rw [hke] at hk2
          cases hk2
          rw [hck] at hc2
          cases hc2
          rw [lookupA_setA_self]
      · intro e' he' k2 hk2 hc2
        rcases List.mem_append.mp he' with he' | he'
        · rw [lookupA_setA_ne _ _ _ _ (hfresh e' he')]
          exact h.lkMiss e' he' k2 hk2 hc2
        · rw [List.mem_singleton] at he'
          subst he'
          rw [hke] at hk2
          cases hk2
          rw [hck] at hc2
          cases hc2
      · intro eid hsome
        by_cases heid : eid = e.id
        · subst heid
          exact ⟨e, List.mem_append_right _ (List.mem_singleton.mpr rfl), rfl,
            k, hke, by rw [hck]; rfl⟩
        · rw [lookupA_setA_ne _ _ _ _ heid] at hsome
          obtain ⟨e', he', rest⟩ := h.lkD eid hsome
          exact ⟨e', List.mem_append_left _ he', rest⟩
      · intro e' he' k2 hk2 hc2
        rcases List.mem_append.mp he' with he' | he'
        · obtain ⟨rep, hrep, hrk, hmem⟩ := h.uniqS e' he' k2 hk2 hc2
          exact ⟨rep, List.mem_append_left _ hrep, hrk, hmem⟩
        · rw [List.mem_singleton] at he'
          subst he'
          rw [hke] at hk2
          cases hk2
          rw [hck] at hc2
          cases hc2
      · intro it hit
        obtain ⟨rep, hrep, k2, hks⟩ := h.uniqD it hit
        exact ⟨rep, List.mem_append_left _ hrep, k2, hks⟩
    | none =>
      dsimp only
      split
      · next hcond =>
        have hsd : seenIds done k = [] := by
          rw [lookupA_pushAt_self, hgd] at hcond
          simp only [Option.getD_some, List.length_append,
            List.length_singleton] at hcond
          exact List.length_eq_zero.mp (by omega)
        refine ⟨rfl, h.gtC, h.gcC, h.wrC, hseenN, hseenS, hevlocS,
          hevlocD, ?_, ?_, ?_, ?_, ?_⟩
        · intro e' he' k2 c2 hk2 hc2
          rcases List.mem_append.mp he' with he' | he'
          · exact h.lkHit e' he' k2 c2 hk2 hc2
          · rw [List.mem_singleton] at he'
            subst he'
            rw [hke] at hk2
            cases hk2
            rw [hck] at hc2
            cases hc2
        · intro e' he' k2 hk2 hc2
          rcases List.mem_append.mp he' with he' | he'
          · exact h.lkMiss e' he' k2 hk2 hc2
          · rw [List.mem_singleton] at he'
            subst he'
            exact hlknone
        · intro eid hsome
          obtain ⟨e', he', rest⟩ := h.lkD eid hsome
          exact ⟨e', List.mem_append_left _ he', rest⟩
        · intro e' he' k2 hk2 hc2
          rcases List.mem_append.mp he' with he' | he'
          · obtain ⟨rep, hrep, hrk, hmem⟩ := h.uniqS e' he' k2 hk2 hc2
            exact ⟨rep, List.mem_append_left _ hrep, hrk,
              List.mem_append_left _ hmem⟩
          · rw [List.mem_singleton] at he'
            subst he'
            rw [hke] at hk2
            cases hk2
            exact ⟨e', List.mem_append_right _ (List.mem_singleton.mpr rfl),
              hke, List.mem_append_right _ (List.mem_singleton.mpr rfl)⟩
        · intro it hit
          rcases List.mem_append.mp hit with hit | hit
          · obtain ⟨rep, hrep, k2, hks⟩ := h.uniqD it hit
            exact ⟨rep, List.mem_append_left _ hrep, k2, hks⟩
          · rw [List.mem_singleton] at hit
            exact ⟨e, List.mem_append_right _ (List.mem_singleton.mpr rfl),
              k, hke, hck, hit⟩
      · next hcond =>
        have hsd : seenIds done k ≠ [] := by
          intro hnil
          apply hcond
          rw [lookupA_pushAt_self, hgd, hnil]
          rfl
        refine ⟨rfl, h.gtC, h.gcC, h.wrC, hseenN, hseenS, hevlocS,
          hevlocD, ?_, ?_, ?_, ?_, ?_⟩
        · intro e' he' k2 c2 hk2 hc2
          rcases List.mem_append.mp he' with he' | he'
          · exact h.lkHit e' he' k2 c2 hk2 hc2
          · rw [List.mem_singleton] at he'
            subst he'
            rw [hke] at hk2
            cases hk2
            rw [hck] at hc2
            cases hc2
        · intro e' he' k2 hk2 hc2
          rcases List.mem_append.mp he' with he' | he'
          · exact h.lkMiss e' he' k2 hk2 hc2
          · rw [List.mem_singleton] at he'
            subst he'
            exact hlknone
        · intro eid hsome
          obtain ⟨e', he', rest⟩ := h.lkD eid hsome
          exact ⟨e', List.mem_append_left _ he', rest⟩
        · intro e' he' k2 hk2 hc2
          rcases List.mem_append.mp he' with he' | he'
          · obtain ⟨rep, hrep, hrk, hmem⟩ := h.uniqS e' he' k2 hk2 hc2
            exact ⟨rep, List.mem_append_left _ hrep, hrk, hmem⟩
          · rw [List.mem_singleton] at he'
            subst he'
            rw [hke] at hk2
            cases hk2
            obtain ⟨e0, he0, hk0⟩ := seenIds_ne_nil hsd
            obtain ⟨rep, hrep, hrk, hmem⟩ := h.uniqS e0 he0 k hk0 hck
            exact ⟨rep, List.mem_append_left _ hrep, hrk, hmem⟩
        · intro it hit
          obtain ⟨rep, hrep, k2, hks⟩ := h.uniqD it hit
          exact ⟨rep, List.mem_append_left _ hrep, k2, hks⟩

theorem Q1_init (cache0 pc0 : List (String × CacheRec)) :
    Q1 cache0 [] (initEnrichState cache0 pc0) := by
  refine ⟨rfl, rfl, rfl, rfl, ?_, ?_, ?_, ?_, ?_, ?_, ?_, ?_, ?_⟩
  · intro k _
    rfl
  · intro k hne
    exact absurd rfl hne
  · intro e' he' _ _
    simp at he'
  · intro eid hsome
    simp [initEnrichState, lookupA] at hsome
  · intro e' he' _ _ _ _
    simp at he'
  · intro e' he' _ _ _
    simp at he'
  · intro eid hsome
    simp [initEnrichState, lookupA] at hsome
  · intro e' he' _ _ _
    simp at he'
  · intro it hit
    simp [initEnrichState] at hit

theorem Q1_fold {cache0 : List (String × CacheRec)} :
    ∀ (es done : List NormalizedEvent) (st : EnrichState),
      ((done ++ es).map NormalizedEvent.id).Nodup →
      Q1 cache0 done st →
      Q1 cache0 (done ++ es) (es.foldl enrichStepF st) := by
  intro es
  induction es with
  | nil =>
    intro done st _ h
    simpa using h
  | cons e t ih =>
    intro done st hnd h
    simp only [List.foldl_cons]
    have hfresh : ∀ e' ∈ done, e'.id ≠ e.id := by
      intro e' he' heq
      rw [List.map_append, List.nodup_append] at hnd
      exact hnd.2.2 (List.mem_map_of_mem _ he') (heq ▸ (by simp))
    have h2 := Q1_step h e hfresh
    have h3 := ih (done ++ [e]) _ (by simpa [List.append_assoc] using hnd) h2
    simpa [List.append_assoc] using h3

theorem foldlF_eq (pc0 : List (String × CacheRec))
    (geoNet : String → Option CacheRec) :
    ∀ (es : List NormalizedEvent) (st : EnrichState),
      es.foldl (enrichStep false pc0 geoNet) st = es.foldl enrichStepF st := by
  intro es
  induction es with
  | nil => intro st; rfl
  | cons e t ih =>
    intro st
    simp only [List.foldl_cons, enrichStep_false]
    exact ih _

theorem mergeStep_lookup_self (st : EnrichState) (r : LocationEnrichment) :
    lookupA (enrichMergeStep st r).lookup r.event_id = some r := by
  unfold enrichMergeStep
  dsimp only
  split
  · exact lookupA_setA_self _ _ _
  · split
    · exact lookupA_setA_self _ _ _
    · dsimp only [cacheWrite]
      exact lookupA_setA_self _ _ _

theorem mergeStep_lookup_ne (st : EnrichState) (r : LocationEnrichment)
    {eid : String} (hne : eid ≠ r.event_id) :
    lookupA (enrichMergeStep st r).lookup eid = lookupA st.lookup eid := by
  unfold enrichMergeStep
  dsimp only
  split
  · exact lookupA_setA_ne _ _ _ _ hne
  · split
    · exact lookupA_setA_ne _ _ _ _ hne
    · dsimp only [cacheWrite]
      exact lookupA_setA_ne _ _ _ _ hne

theorem mergeStep_state (st : EnrichState) (r : LocationEnrichment) :
    (enrichMergeStep st r).event_location_lookup = st.event_location_lookup ∧
      (enrichMergeStep st r).seen_locations = st.seen_locations ∧
      (enrichMergeStep st r).unique_events = st.unique_events ∧
      (enrichMergeStep st r).geoCalls = st.geoCalls := by
  obtain ⟨lk, c, w, heq⟩ := enrichMergeStep_eq st r
  rw [heq]
  exact ⟨rfl, rfl, rfl, rfl⟩

theorem mergeStep_cache (st : EnrichState) (r : LocationEnrichment) :
    (enrichMergeStep st r).cache =
      match lookupA st.event_location_lookup r.event_id with
      | none => st.cache
      | some loc =>
        if loc = "" then st.cache
        else setA st.cache loc (cache_from_enrichment r) := by
  unfold enrichMergeStep
  dsimp only
  split
  · rfl
  · split
    · rfl
    · rfl

theorem mergeFold_state : ∀ (rs : List LocationEnrichment) (st : EnrichState),
    (rs.foldl enrichMergeStep st).event_location_lookup =
        st.event_location_lookup ∧
      (rs.foldl enrichMergeStep st).seen_locations = st.seen_locations ∧
      (rs.foldl enrichMergeStep st).unique_events = st.unique_events ∧
      (rs.foldl enrichMergeStep st).geoCalls = st.geoCalls := by
  intro rs
  induction rs with
  | nil => intro st; exact ⟨rfl, rfl, rfl, rfl⟩
  | cons r t ih =>
    intro st
    simp only [List.foldl_cons]
    obtain ⟨h1, h2, h3, h4⟩ := ih (enrichMergeStep st r)
    obtain ⟨g1, g2, g3, g4⟩ := mergeStep_state st r
    exact ⟨h1.trans g1, h2.trans g2, h3.trans g3, h4.trans g4⟩

theorem mergeFold_lookup_ne :
    ∀ (rs : List LocationEnrichment) (st : EnrichState) (eid : String),
      eid ∉ rs.map LocationEnrichment.event_id →
      lookupA (rs.foldl enrichMergeStep st).lookup eid =
        lookupA st.lookup eid := by
  intro rs
  induction rs with
  | nil => intro st eid _; rfl
  | cons r t ih =>
    intro st eid h
    simp only [List.map_cons, List.mem_cons, not_or] at h
    simp only [List.foldl_cons]
    rw [ih _ _ h.2]
    exact mergeStep_lookup_ne st r h.1

theorem mergeFold_lookup_self :
    ∀ (rs : List LocationEnrichment) (st : EnrichState),
      (rs.map LocationEnrichment.event_id).Nodup →
      ∀ r ∈ rs, lookupA (rs.foldl enrichMergeStep st).lookup r.event_id =
        some r := by
  intro rs
  induction rs with
  | nil => intro st _ r hr; simp at hr
  | cons r0 t ih =>
    intro st hnd r hr
    simp only [List.map_cons, List.nodup_cons] at hnd
    simp only [List.foldl_cons]
    rcases List.mem_cons.mp hr with hr | hr
    · subst hr
      rw [mergeFold_lookup_ne t _ _ hnd.1]
      exact mergeStep_lookup_self st r
    · exact ih _ hnd.2 r hr

theorem mergeFold_cache_ne :
    ∀ (rs : List LocationEnrichment) (st : EnrichState) (k : String),
      (∀ r ∈ rs, ∀ k2,
        lookupA st.event_location_lookup r.event_id = some k2 → k2 ≠ k) →
      lookupA (rs.foldl enrichMergeStep st).cache k = lookupA st.cache k := by
  intro rs
  induction rs with
  | nil => intro st k _; rfl
  | cons r t ih =>
    intro st k h
    simp only [List.foldl_cons]
    have hev := (mergeStep_state st r).1
    rw [ih _ _ (fun r' hr' k2 hk2 => h r' (List.mem_cons_of_mem _ hr') k2
      (by rw [← hev]; exact hk2))]
    rw [mergeStep_cache]
    cases heq : lookupA st.event_location_lookup r.event_id with
    | none => rfl
    | some loc =>
      dsimp only
      by_cases hloc : loc = ""
      · rw [if_pos hloc]
      · rw [if_neg hloc]
        exact lookupA_setA_ne _ _ _ _
          (fun he => h r (List.mem_cons_self _ _) loc heq he.symm)

theorem mergeFold_cache_self :
    ∀ (rs : List LocationEnrichment) (st : EnrichState),
      (rs.map LocationEnrichment.event_id).Nodup →
      ∀ r ∈ rs, ∀ k,
        lookupA st.event_location_lookup r.event_id = some k → k ≠ "" →
        (∀ r' ∈ rs, r'.event_id ≠ r.event_id → ∀ k',
          lookupA st.event_location_lookup r'.event_id = some k' → k' ≠ k) →
        lookupA (rs.foldl enrichMergeStep st).cache k =
          some (cache_from_enrichment r) := by
  intro rs
  induction rs with
  | nil => intro st _ r hr; simp at hr
  | cons r0 t ih =>
    intro st hnd r hr k hk hke hinj
    simp only [List.map_cons, List.nodup_cons] at hnd
    simp only [List.foldl_cons]
    have hev := (mergeStep_state st r0).1
    rcases List.mem_cons.mp hr with hr | hr
    · subst hr
      rw [mergeFold_cache_ne t _ k ?_]
      · rw [mergeStep_cache, hk]
        dsimp only
        rw [if_neg hke]
        exact lookupA_setA_self _ _ _
      · intro r' hr' k2 hk2
        rw [hev] at hk2
        refine hinj r' (List.mem_cons_of_mem _ hr') ?_ k2 hk2
        intro hid
        exact hnd.1 (hid ▸ List.mem_map_of_mem _ hr')
    · refine ih _ hnd.2 r hr k (by rw [hev]; exact hk) hke ?_
      intro r' hr' hne k' hk'
      rw [hev] at hk'
      exact hinj r' (List.mem_cons_of_mem _ hr') hne k' hk'

/-- The body of the propagation loop (`llm_enrich.py:220-233`), for a fixed
representative id `tid`. -/
def propStep (tid : String) (st : EnrichState) (eid : String) : EnrichState :=
  if (lookupA st.lookup eid).isSome then st
  else
    match lookupA st.lookup tid with
    | none => st
    | some template =>
      { st with lookup := setA st.lookup eid { template with event_id := eid } }

theorem propagateItem_propStep (st : EnrichState) (it : PromptItem) :
    propagateItem st it =
      ((lookupA st.seen_locations it.location).getD []).foldl
        (propStep it.event_id) st := rfl

theorem propStep_pres {tid : String} {s : EnrichState} {x eid : String}
    {v : LocationEnrichment} (h : lookupA s.lookup eid = some v) :
    lookupA (propStep tid s x).lookup eid = some v := by
  unfold propStep
  split
  · exact h
  · next hnone =>
    split
    · exact h
    · have hx : eid ≠ x := by
        intro he
        subst he
        rw [h] at hnone
        simp at hnone
      exact (lookupA_setA_ne _ _ _ _ hx).trans h

theorem propStep_none_pres {tid : String} {s : EnrichState} {x eid : String}
    (h : lookupA s.lookup eid = none) (hne : eid ≠ x) :
    lookupA (propStep tid s x).lookup eid = none := by
  unfold propStep
  split
  · exact h
  · split
    · exact h
    · exact (lookupA_setA_ne _ _ _ _ hne).trans h

theorem propStep_dom {tid : String} {s : EnrichState} {x eid : String}
    (h : (lookupA (propStep tid s x).lookup eid).isSome = true) :
    (lookupA s.lookup eid).isSome = true ∨ eid = x := by
  by_cases he : eid = x
  · exact Or.inr he
  · refine Or.inl ?_
    unfold propStep at h
    split at h
    · exact h
    · split at h
      · exact h
      · rw [lookupA_setA_ne _ _ _ _ he] at h
        exact h

theorem propFold_pres {tid : String} :
    ∀ (l : List String) (s : EnrichState) {eid : String}
      {v : LocationEnrichment},
      lookupA s.lookup eid = some v →
      lookupA ((l.foldl (propStep tid) s)).lookup eid = some v := by
  intro l
  induction l with
  | nil => intro s eid v h; exact h
  | cons x t ih =>
    intro s eid v h
    simp only [List.foldl_cons]
    exact ih _ (propStep_pres h)

theorem propFold_none {tid : String} :
    ∀ (l : List String) (s : EnrichState) {eid : String},
      lookupA s.lookup eid = none → eid ∉ l →
      lookupA ((l.foldl (propStep tid) s)).lookup eid = none := by
  intro l
  induction l with
  | nil => intro s eid h _; exact h
  | cons x t ih =>
    intro s eid h hm
    simp only [List.mem_cons, not_or] at hm
    simp only [List.foldl_cons]
    exact ih _ (propStep_none_pres h hm.1) hm.2

theorem propFold_sets {tid : String} :
    ∀ (l : List String) (s : EnrichState) {eid : String}
      {tmpl : LocationEnrichment},
      lookupA s.lookup tid = some tmpl → lookupA s.lookup eid = none →
      eid ∈ l →
      lookupA ((l.foldl (propStep tid) s)).lookup eid =
        some { tmpl with event_id := eid } := by
  intro l
  induction l with
  | nil => intro s eid tmpl _ _ hm; simp at hm
  | cons x t ih =>
    intro s eid tmpl htid hnone hm
    simp only [List.foldl_cons]
    by_cases hx : eid = x
    · subst hx
      have hstep : lookupA (propStep tid s eid).lookup eid =
          some { tmpl with event_id := eid } := by
        unfold propStep
        rw [if_neg (by rw [hnone]; simp), htid]
        dsimp only
        exact lookupA_setA_self _ _ _
      exact propFold_pres t _ hstep
    · refine ih _ (propStep_pres htid) (propStep_none_pres hnone hx) ?_
      rcases List.mem_cons.mp hm with hm | hm
      · exact absurd hm hx
      · exact hm

theorem propFold_dom {tid : String} :
    ∀ (l : List String) (s : EnrichState) (eid : String),
      (lookupA ((l.foldl (propStep tid) s)).lookup eid).isSome = true →
      (lookupA s.lookup eid).isSome = true ∨ eid ∈ l := by
  intro l
  induction l with
  | nil => intro s eid h; exact Or.inl h
  | cons x t ih =>
    intro s eid h
    simp only [List.foldl_cons] at h
    rcases ih _ _ h with h1 | h1
    · rcases propStep_dom h1 with h2 | h2
      · exact Or.inl h2
      · exact Or.inr (by rw [h2]; exact List.mem_cons_self _ _)
    · exact Or.inr (List.mem_cons_of_mem _ h1)

theorem propItems_pres :
    ∀ (its : List PromptItem) (s : EnrichState) {eid : String}
      {v : LocationEnrichment},
      lookupA s.lookup eid = some v →
      lookupA ((its.foldl propagateItem s)).lookup eid = some v := by
  intro its
  induction its with
  | nil => intro s eid v h; exact h
  | cons it t ih =>
    intro s eid v h
    simp only [List.foldl_cons]
    refine ih _ ?_
    rw [propagateItem_propStep]
    exact propFold_pres _ _ h

theorem propItems_dom :
    ∀ (its : List PromptItem) (sl : List (String × List String))
      (s : EnrichState) (eid : String),
      s.seen_locations = sl →
      (lookupA ((its.foldl propagateItem s)).lookup eid).isSome = true →
      (lookupA s.lookup eid).isSome = true ∨
        ∃ it ∈ its, eid ∈ (lookupA sl it.location).getD [] := by
  intro its
  induction its with
  | nil => intro sl s eid _ h; exact Or.inl h
  | cons it t ih =>
    intro sl s eid hsl h
    simp only [List.foldl_cons] at h
    obtain ⟨lk, heq⟩ := propagateItem_eq s it
    have hseen : (propagateItem s it).seen_locations = sl := by
      rw [heq]; exact hsl
    rcases ih sl _ eid hseen h with h1 | h1
    · rw [propagateItem_propStep] at h1
      rcases propFold_dom _ _ _ h1 with h2 | h2
      · exact Or.inl h2
      · refine Or.inr ⟨it, List.mem_cons_self _ _, ?_⟩
        rw [← hsl]
        exact h2
    · obtain ⟨it', hit', hmem⟩ := h1
      exact Or.inr ⟨it', List.mem_cons_of_mem _ hit', hmem⟩

theorem propItems_sets :
    ∀ (its : List PromptItem) (sl : List (String × List String))
      (s : EnrichState) (eid : String) (r : LocationEnrichment)
      (it : PromptItem),
      s.seen_locations = sl → it ∈ its →
      (∀ it' ∈ its, it' ≠ it → eid ∉ (lookupA sl it'.location).getD []) →
      eid ∈ (lookupA sl it.location).getD [] →
      lookupA s.lookup it.event_id = some r →
      lookupA s.lookup eid = none →
      lookupA ((its.foldl propagateItem s)).lookup eid =
        some { r with event_id := eid } := by
  intro its
  induction its with
  | nil => intro sl s eid r it _ hm; simp at hm
  | cons it0 t ih =>
    intro sl s eid r it hsl hmem hexcl hsib htid hnone
    simp only [List.foldl_cons]
    by_cases h0 : it0 = it
    · subst h0
      have hset : lookupA (propagateItem s it0).lookup eid =
          some { r with event_id := eid } := by
        rw [propagateItem_propStep]
        exact propFold_sets _ _ htid hnone (by rw [hsl]; exact hsib)
      exact propItems_pres t _ hset
    · have hmem' : it ∈ t := by
        rcases List.mem_cons.mp hmem with hm | hm
        · exact absurd hm.symm h0
        · exact hm
      obtain ⟨lk, heq⟩ := propagateItem_eq s it0
      have hseen' : (propagateItem s it0).seen_locations = sl := by
        rw [heq]; exact hsl
      have htid' : lookupA (propagateItem s it0).lookup it.event_id = some r := by
        rw [propagateItem_propStep]
        exact propFold_pres _ _ htid
      have hnone' : lookupA (propagateItem s it0).lookup eid = none := by
        rw [propagateItem_propStep]
        refine propFold_none _ _ hnone ?_
        rw [hsl]
        exact hexcl it0 (List.mem_cons_self _ _) h0
      exact ih sl _ eid r it hseen' hmem'
        (fun it' h' hne => hexcl it' (List.mem_cons_of_mem _ h') hne)
        hsib htid' hnone'

theorem keyOf_ne_empty {e : NormalizedEvent} {k : String}
    (h : keyOf e = some k) : k ≠ "" := by
  unfold keyOf at h
  rcases hl : e.location_raw with _ | raw
  · rw [hl] at h
    cases h
  · rw [hl] at h
    dsimp only at h
    by_cases h1 : raw = ""
    · rw [if_pos h1] at h
      cases h
    · rw [if_neg h1] at h
      by_cases h2 : pyStrip raw = ""
      · rw [if_pos h2] at h
        cases h
      · rw [if_neg h2] at h
        cases h
        exact h2

theorem propItems_state :
    ∀ (its : List PromptItem) (s : EnrichState),
      (its.foldl propagateItem s).cache = s.cache ∧
        (its.foldl propagateItem s).seen_locations = s.seen_locations ∧
        (its.foldl propagateItem s).geoCalls = s.geoCalls ∧
        (its.foldl propagateItem s).unique_events = s.unique_events := by
  intro its
  induction its with
  | nil => intro s; exact ⟨rfl, rfl, rfl, rfl⟩
  | cons it t ih =>
    intro s
    simp only [List.foldl_cons]
    obtain ⟨h1, h2, h3, h4⟩ := ih (propagateItem s it)
    obtain ⟨lk, heq⟩ := propagateItem_eq s it
    rw [heq] at h1 h2 h3 h4
    rw [heq]
    exact ⟨h1, h2, h3, h4⟩

/-- A `gk = false` run whose every dedup key is already in the cache: the
phase-1 invariant holds, no prompt item is queued (the resolver is never
consulted), and the run early-returns its phase-1 state. -/
theorem coveredRun (pc0 : List (String × CacheRec))
    (geoNet : String → Option CacheRec)
    (llm : List PromptItem → List LocationEnrichment)
    (c1 : List (String × CacheRec)) (events : List NormalizedEvent)
    (hids : (events.map NormalizedEvent.id).Nodup)
    (hcov : ∀ e ∈ events, ∀ k, keyOf e = some k →
      (lookupA c1 k).isSome = true) :
    Q1 c1 events (enrichPhase1 false pc0 geoNet c1 events) ∧
      (enrichPhase1 false pc0 geoNet c1 events).unique_events = [] ∧
      enrich_all_events false pc0 geoNet llm c1 events =
        (enrichPhase1 false pc0 geoNet c1 events).out := by
  have hphase : enrichPhase1 false pc0 geoNet c1 events =
      events.foldl enrichStepF (initEnrichState c1 pc0) :=
    foldlF_eq pc0 geoNet events _
  have hQ : Q1 c1 events (enrichPhase1 false pc0 geoNet c1 events) := by
    rw [hphase]
    have := Q1_fold events [] (initEnrichState c1 pc0) (by simpa using hids)
      (Q1_init c1 pc0)
    simpa using this
  have hue : (enrichPhase1 false pc0 geoNet c1 events).unique_events = [] := by
    rw [List.eq_nil_iff_forall_not_mem]
    intro it hit
    obtain ⟨rep, hrep, k, hk, hnone, _⟩ := hQ.uniqD it hit
    have hc := hcov rep hrep k hk
    rw [hnone] at hc
    simp at hc
  refine ⟨hQ, hue, ?_⟩
  unfold enrich_all_events
  dsimp only
  rw [hue, hQ.gtC]

/-- Characterisation of a full `gk = false` run whose resolver answers every
prompt item with exactly one result per item id, with shorten-stable dedup
keys: the returned cache covers every dedup key, the returned lookup agrees
pointwise with the returned cache, and the lookup holds exactly the events
carrying a dedup key. -/
theorem mainRun_char (pc0 : List (String × CacheRec))
    (geoNet : String → Option CacheRec)
    (llm : List PromptItem → List LocationEnrichment)
    (cache0 : List (String × CacheRec)) (events : List NormalizedEvent)
    (hids : (events.map NormalizedEvent.id).Nodup)
    (hstab : ∀ e ∈ events, ∀ k, keyOf e = some k →
      shorten_location (some k) = k)
    (hsub : ∀ r ∈
        llm (enrichPhase1 false pc0 geoNet cache0 events).unique_events,
      r.event_id ∈
        (enrichPhase1 false pc0 geoNet cache0 events).unique_events.map
          PromptItem.event_id)
    (htot : ∀ it ∈ (enrichPhase1 false pc0 geoNet cache0 events).unique_events,
      ∃ r ∈ llm (enrichPhase1 false pc0 geoNet cache0 events).unique_events,
        r.event_id = it.event_id)
    (hnd : ((llm (enrichPhase1 false pc0 geoNet cache0
        events).unique_events).map LocationEnrichment.event_id).Nodup) :
    (∀ e ∈ events, ∀ k, keyOf e = some k →
      (lookupA (enrich_all_events false pc0 geoNet llm cache0 events).cache
        k).isSome = true) ∧
    (∀ e ∈ events, ∀ k c, keyOf e = some k →
      lookupA (enrich_all_events false pc0 geoNet llm cache0 events).cache k =
        some c →
      lookupA (enrich_all_events false pc0 geoNet llm cache0 events).lookup
        e.id = some (location_enrichment_from_cache e.id c)) ∧
    (∀ eid, (lookupA
        (enrich_all_events false pc0 geoNet llm cache0 events).lookup
        eid).isSome = true →
      ∃ e ∈ events, e.id = eid ∧ keyOf e ≠ none) := by
  have hphase : enrichPhase1 false pc0 geoNet cache0 events =
      events.foldl enrichStepF (initEnrichState cache0 pc0) :=
    foldlF_eq pc0 geoNet events _
  have hQ : Q1 cache0 events (enrichPhase1 false pc0 geoNet cache0 events) := by
    rw [hphase]
    have := Q1_fold events [] (initEnrichState cache0 pc0)
      (by simpa using hids) (Q1_init cache0 pc0)
    simpa using this
  have hP : P1 cache0 false pc0 geoNet []
      (enrichPhase1 false pc0 geoNet cache0 events) :=
    P1_fold events _ hids (P1_init cache0 false pc0 geoNet events)
  set st1 := enrichPhase1 false pc0 geoNet cache0 events with hst1
  have hidInj : ∀ e ∈ events, ∀ e' ∈ events, e.id = e'.id → e = e' :=
    fun e he e' he' hh => List.inj_on_of_nodup_map hids he he' hh
  have hitInj : ∀ it ∈ st1.unique_events, ∀ it' ∈ st1.unique_events,
      it.event_id = it'.event_id → it = it' :=
    fun it hi it' hi' hh => List.inj_on_of_nodup_map hP.idsNodup hi hi' hh
  have hitdata : ∀ it ∈ st1.unique_events, ∃ rep ∈ events, ∃ k,
      keyOf rep = some k ∧ lookupA cache0 k = none ∧
      it.event_id = rep.id ∧
      lookupA st1.event_location_lookup it.event_id = some k ∧
      it.location = k := by
    intro it hit
    obtain ⟨rep, hrep, k, hk, hn, heq⟩ := hQ.uniqD it hit
    subst heq
    exact ⟨rep, hrep, k, hk, hn, rfl, hQ.evlocS rep hrep k hk,
      hstab rep hrep k hk⟩
  have hrdata : ∀ r ∈ llm st1.unique_events, ∃ it ∈ st1.unique_events,
      it.event_id = r.event_id ∧ ∃ k,
      lookupA st1.event_location_lookup r.event_id = some k ∧
      lookupA cache0 k = none := by
    intro r hr
    obtain ⟨it, hit, hide⟩ := List.mem_map.mp (hsub r hr)
    obtain ⟨rep, hrep, k, hk, hn, hide2, hel, _⟩ := hitdata it hit
    exact ⟨it, hit, hide, k, by rw [← hide]; exact hel, hn⟩
  have hrne : ∀ eid, (∃ e ∈ events, e.id = eid ∧ ∃ k c, keyOf e = some k ∧
      lookupA cache0 k = some c) →
      eid ∉ (llm st1.unique_events).map LocationEnrichment.event_id := by
    rintro eid ⟨e, he, hid, k, c, hk, hc⟩ hmem
    obtain ⟨r, hr, hre⟩ := List.mem_map.mp hmem
    obtain ⟨it, hit, hitid, k', hel', hn'⟩ := hrdata r hr
    obtain ⟨rep, hrep, k2, hk2, hn2, hid2, hel2, _⟩ := hitdata it hit
    have herep : e = rep :=
      hidInj e he rep hrep (by rw [hid, ← hre, ← hitid, hid2])
    rw [← herep] at hk2
    rw [hk] at hk2
    cases hk2
    rw [hc] at hn2
    cases hn2
  cases hue : st1.unique_events with
  | nil =>
    have hcov0 : ∀ e ∈ events, ∀ k, keyOf e = some k →
        (lookupA cache0 k).isSome = true := by
      intro e he k hk
      cases hc : lookupA cache0 k with
      | some c => rfl
      | none =>
        obtain ⟨rep, hrep, hrk, hmem⟩ := hQ.uniqS e he k hk hc
        rw [hue] at hmem
        simp at hmem
    have hout : enrich_all_events false pc0 geoNet llm cache0 events =
        st1.out := by
      unfold enrich_all_events
      dsimp only
      rw [← hst1, hue, hQ.gtC]
    refine ⟨?_, ?_, ?_⟩
    · intro e he k hk
      rw [hout]
      show (lookupA st1.cache k).isSome = true
      rw [hQ.cacheC]
      exact hcov0 e he k hk
    · intro e he k c hk hc
      rw [hout] at hc ⊢
      show lookupA st1.lookup e.id = _
      refine hQ.lkHit e he k c hk ?_
      rw [← hQ.cacheC]
      exact hc
    · intro eid hsome
      rw [hout] at hsome
      obtain ⟨e, he, hid, k, hk, _⟩ := hQ.lkD eid hsome
      exact ⟨e, he, hid, by rw [hk]; simp⟩
  | cons u us =>
    rw [hue] at hsub htot hnd hrdata hrne hitdata hitInj
    have hout : enrich_all_events false pc0 geoNet llm cache0 events =
        ((u :: us).foldl propagateItem
          ((llm (u :: us)).foldl enrichMergeStep st1)).out := by
      unfold enrich_all_events
      dsimp only
      rw [← hst1, hue, hQ.gtC]
      rfl
    set rs := llm (u :: us) with hrs
    set st2 := rs.foldl enrichMergeStep st1 with hst2
    set st3 := (u :: us).foldl propagateItem st2 with hst3
    obtain ⟨hev2, hseen2, huniq2, _⟩ := mergeFold_state rs st1
    rw [← hst2] at hev2 hseen2 huniq2
    obtain ⟨hcache3, hseen3, _, _⟩ := propItems_state (u :: us) st2
    rw [← hst3] at hcache3 hseen3
    have houtcache :
        (enrich_all_events false pc0 geoNet llm cache0 events).cache =
          st2.cache := by
      rw [hout]
      exact hcache3
    have houtlookup :
        (enrich_all_events false pc0 geoNet llm cache0 events).lookup =
          st3.lookup := by
      rw [hout]
      rfl
    have hcache_hit : ∀ k c, lookupA cache0 k = some c →
        lookupA st2.cache k = some c := by
      intro k c hc
      rw [hst2]
      rw [mergeFold_cache_ne rs st1 k ?_]
      · rw [hQ.cacheC]
        exact hc
      · intro r hr k2 hk2
        obtain ⟨it, hit, hitid, k', hel', hn'⟩ := hrdata r hr
        rw [hel'] at hk2
        cases hk2
        intro he
        subst he
        rw [hn'] at hc
        cases hc
    have hcache_missr : ∀ r ∈ rs, ∀ k,
        lookupA st1.event_location_lookup r.event_id = some k → k ≠ "" →
        lookupA cache0 k = none →
        lookupA st2.cache k = some (cache_from_enrichment r) := by
      intro r hr k hel hkne hk0
      rw [hst2]
      refine mergeFold_cache_self rs st1 hnd r hr k hel hkne ?_
      intro r' hr' hne k' hel' he
      rw [he] at hel'
      obtain ⟨it', hit', hitid', _⟩ := hrdata r' hr'
      obtain ⟨it, hit, hitid, _⟩ := hrdata r hr
      have hii : it'.event_id = it.event_id := by
        by_contra hne2
        exact hP.keyInj it' (by rw [hue]; exact hit') it
          (by rw [hue]; exact hit) k k
          (by rw [hitid']; exact hel') (by rw [hitid]; exact hel) hne2 rfl
      exact hne (by rw [← hitid', hii, hitid])
    refine ⟨?_, ?_, ?_⟩
    · -- coverage of the final cache
      intro e he k hk
      rw [houtcache]
      cases hc : lookupA cache0 k with
      | some c =>
        rw [hcache_hit k c hc]
        rfl
      | none =>
        obtain ⟨rep', hrep', hkrep', hitmem0⟩ := hQ.uniqS e he k hk hc
        have hitmem : mkPromptItem rep' k ∈ u :: us := by
          rw [← hue]
          exact hitmem0
        obtain ⟨r, hrmem, hrid⟩ := htot _ hitmem
        have helr : lookupA st1.event_location_lookup r.event_id = some k := by
          rw [hrid]
          exact hQ.evlocS rep' hrep' k hkrep'
        rw [hcache_missr r hrmem k helr (keyOf_ne_empty hkrep') hc]
        rfl
    · -- lookup agrees with the final cache
      intro e he k c hk hc
      rw [houtcache] at hc
      rw [houtlookup]
      cases hc0 : lookupA cache0 k with
      | some c0 =>
        rw [hcache_hit k c0 hc0] at hc
        cases hc
        have hnid : e.id ∉ rs.map LocationEnrichment.event_id :=
          hrne e.id ⟨e, he, rfl, k, c, hk, hc0⟩
        have h2 : lookupA st2.lookup e.id =
            some (location_enrichment_from_cache e.id c) := by
          rw [hst2, mergeFold_lookup_ne rs st1 e.id hnid]
          exact hQ.lkHit e he k c hk hc0
        have h3 : lookupA st3.lookup e.id =
            some (location_enrichment_from_cache e.id c) := by
          rw [hst3]
          exact propItems_pres _ _ h2
        rw [h3]
      | none =>
        obtain ⟨rep', hrep', hkrep', hitmem0⟩ := hQ.uniqS e he k hk hc0
        have hitmem : mkPromptItem rep' k ∈ u :: us := by
          rw [← hue]
          exact hitmem0
        obtain ⟨r, hrmem, hrid⟩ := htot _ hitmem
        have helr : lookupA st1.event_location_lookup r.event_id = some k := by
          rw [hrid]
          exact hQ.evlocS rep' hrep' k hkrep'
        have hcfe : lookupA st2.cache k = some (cache_from_enrichment r) :=
          hcache_missr r hrmem k helr (keyOf_ne_empty hkrep') hc0
        rw [hcfe] at hc
        cases hc
        have htmpl : lookupA st2.lookup r.event_id = some r := by
          rw [hst2]
          exact mergeFold_lookup_self rs st1 hnd r hrmem
        by_cases hre : e.id = r.event_id
        · have h3 : lookupA st3.lookup e.id = some r := by
            rw [hst3]
            refine propItems_pres _ _ ?_
            rw [hre]
            exact htmpl
          rw [h3, hre]
          rfl
        · have hnid : e.id ∉ rs.map LocationEnrichment.event_id := by
            intro hmem
            obtain ⟨r', hr', hre'⟩ := List.mem_map.mp hmem
            obtain ⟨it', hit', hitid', _⟩ := hrdata r' hr'
            have hele : lookupA st1.event_location_lookup e.id = some k :=
              hQ.evlocS e he k hk
            have hinjit : it'.event_id = (mkPromptItem rep' k).event_id := by
              by_contra hne2
              exact hP.keyInj it' (by rw [hue]; exact hit')
                (mkPromptItem rep' k) (by rw [hue]; exact hitmem) k k
                (by rw [hitid', hre']; exact hele)
                (hQ.evlocS rep' hrep' k hkrep') hne2 rfl
            apply hre
            rw [← hre', ← hitid', hinjit, ← hrid]
          have h2none : lookupA st2.lookup e.id = none := by
            rw [hst2, mergeFold_lookup_ne rs st1 e.id hnid]
            exact hQ.lkMiss e he k hk hc0
          have hexcl : ∀ it2 ∈ u :: us, it2 ≠ mkPromptItem rep' k →
              e.id ∉ (lookupA st1.seen_locations it2.location).getD [] := by
            intro it2 hit2 hne2 hmem2
            obtain ⟨rep2, hrep2, k2, hk2, hn2, hid2, hel2, hloc2⟩ :=
              hitdata it2 hit2
            rw [hloc2] at hmem2
            by_cases hsd : seenIds events k2 = []
            · rw [hQ.seenN k2 hsd] at hmem2
              simp at hmem2
            · rw [hQ.seenS k2 hsd] at hmem2
              simp only [Option.getD_some] at hmem2
              obtain ⟨e2, he2, hid2e, hk2e⟩ := seenIds_sound _ hmem2
              have he2e : e2 = e := hidInj e2 he2 e he hid2e
              rw [he2e] at hk2e
              have hkk : k2 = k := by
                rw [hk] at hk2e
                exact (Option.some.inj hk2e).symm
              rw [hkk] at hel2
              have hsame : it2.event_id = (mkPromptItem rep' k).event_id := by
                by_contra hne3
                exact hP.keyInj it2 (by rw [hue]; exact hit2)
                  (mkPromptItem rep' k) (by rw [hue]; exact hitmem) k k
                  hel2 (hQ.evlocS rep' hrep' k hkrep') hne3 rfl
              exact hne2 (hitInj it2 hit2 (mkPromptItem rep' k) hitmem hsame)
          have hsib : e.id ∈ (lookupA st1.seen_locations
              (mkPromptItem rep' k).location).getD [] := by
            have hloc : (mkPromptItem rep' k).location = k :=
              hstab rep' hrep' k hkrep'
            rw [hloc]
            have hne : seenIds events k ≠ [] := by
              intro hnil
              have hm := seenIds_mem he hk
              rw [hnil] at hm
              simp at hm
            rw [hQ.seenS k hne]
            simpa using seenIds_mem he hk
          have htmpl2 : lookupA st2.lookup (mkPromptItem rep' k).event_id =
              some r := by
            rw [← hrid]
            exact htmpl
          have h3 : lookupA st3.lookup e.id =
              some { r with event_id := e.id } := by
            rw [hst3]
            exact propItems_sets (u :: us) st1.seen_locations st2 e.id r
              (mkPromptItem rep' k) hseen2 hitmem hexcl hsib htmpl2 h2none
          rw [h3]
          rfl
    · -- domain of the final lookup
      intro eid hsome
      rw [houtlookup, hst3] at hsome
      rcases propItems_dom (u :: us) st1.seen_locations st2 eid hseen2 hsome
        with h1 | h1
      · by_cases hmem : eid ∈ rs.map LocationEnrichment.event_id
        · obtain ⟨r, hr, hre⟩ := List.mem_map.mp hmem
          obtain ⟨it, hit, hitid, _⟩ := hrdata r hr
          obtain ⟨rep, hrep, k2, hk2, _, hid2, _, _⟩ := hitdata it hit
          refine ⟨rep, hrep, ?_, by rw [hk2]; simp⟩
          rw [← hid2, hitid, hre]
        · rw [hst2, mergeFold_lookup_ne rs st1 eid hmem] at h1
          obtain ⟨e, he, hid, k, hk, _⟩ := hQ.lkD eid h1
          exact ⟨e, he, hid, by rw [hk]; simp⟩
      · obtain ⟨it, hit, hmem⟩ := h1
        obtain ⟨rep2, hrep2, k2, hk2, hn2, hid2, hel2, hloc2⟩ := hitdata it hit
        rw [hloc2] at hmem
        by_cases hsd : seenIds events k2 = []
        · rw [hQ.seenN k2 hsd] at hmem
          simp at hmem
        · rw [hQ.seenS k2 hsd] at hmem
          simp only [Option.getD_some] at hmem
          obtain ⟨e2, he2, hid2e, hk2e⟩ := seenIds_sound _ hmem
          exact ⟨e2, he2, hid2e, by rw [hk2e]; simp⟩

/-- C7 (amended): with no Maps key configured (with one, the original claim
fails: the second run geocodes again every covered cache record that is
missing a coordinate — see the counterexample), pairwise-distinct event
ids, shorten-stable dedup keys, and a resolver that answers every prompt
item exactly once under its own item id, a second run of
`enrich_all_events` on the same event list, started from the first
run's returned cache, queues no prompt item (so the LLM is never
called), performs zero geocode calls, returns the cache unchanged, and
returns an enrichment lookup pointwise identical to the first run's. -/
theorem c7_second_run_idempotent (pc0 : List (String × CacheRec))
    (geoNet : String → Option CacheRec)
    (llm : List PromptItem → List LocationEnrichment)
    (cache0 : List (String × CacheRec)) (events : List NormalizedEvent)
    (hids : (events.map NormalizedEvent.id).Nodup)
    (hstab : ∀ e ∈ events, ∀ k, keyOf e = some k →
      shorten_location (some k) = k)
    (hsub : ∀ r ∈ llm (enrich_all_events false pc0 geoNet llm cache0
        events).unique_events,
      r.event_id ∈ (enrich_all_events false pc0 geoNet llm cache0
        events).unique_events.map PromptItem.event_id)
    (htot : ∀ it ∈ (enrich_all_events false pc0 geoNet llm cache0
        events).unique_events,
      ∃ r ∈ llm (enrich_all_events false pc0 geoNet llm cache0
        events).unique_events, r.event_id = it.event_id)
    (hnd : ((llm (enrich_all_events false pc0 geoNet llm cache0
        events).unique_events).map LocationEnrichment.event_id).Nodup) :
    (enrich_all_events false pc0 geoNet llm
      (enrich_all_events false pc0 geoNet llm cache0 events).cache
      events).unique_events = [] ∧
    (enrich_all_events false pc0 geoNet llm
      (enrich_all_events false pc0 geoNet llm cache0 events).cache
      events).geoCalls = 0 ∧
    (enrich_all_events false pc0 geoNet llm
      (enrich_all_events false pc0 geoNet llm cache0 events).cache
      events).cache =
      (enrich_all_events false pc0 geoNet llm cache0 events).cache ∧
    ∀ eid, lookupA (enrich_all_events false pc0 geoNet llm
        (enrich_all_events false pc0 geoNet llm cache0 events).cache
        events).lookup eid =
      lookupA (enrich_all_events false pc0 geoNet llm cache0 events).lookup
        eid := by
  rw [run_unique_events] at hsub htot hnd
  obtain ⟨hcov1, hbridge, hdom1⟩ :=
    mainRun_char pc0 geoNet llm cache0 events hids hstab hsub htot hnd
  obtain ⟨hQ2, hue2, hout2⟩ := coveredRun pc0 geoNet llm
    (enrich_all_events false pc0 geoNet llm cache0 events).cache events
    hids hcov1
  refine ⟨?_, ?_, ?_, ?_⟩
  · rw [hout2]
    exact hue2
  · rw [hout2]
    exact hQ2.gcC
  · rw [hout2]
    exact hQ2.cacheC
  · intro eid
    by_cases h1 : ∃ e ∈ events, e.id = eid ∧ ∃ k, keyOf e = some k
    · obtain ⟨e, he, hid, k, hk⟩ := h1
      subst hid
      have hcovk := hcov1 e he k hk
      obtain ⟨c, hc⟩ := Option.isSome_iff_exists.mp hcovk
      have hl1 := hbridge e he k c hk hc
      have hl2 : lookupA (enrich_all_events false pc0 geoNet llm
          (enrich_all_events false pc0 geoNet llm cache0 events).cache
          events).lookup e.id =
          some (location_enrichment_from_cache e.id c) := by
        rw [hout2]
        exact hQ2.lkHit e he k c hk hc
      rw [hl1, hl2]
    · push_neg at h1
      have h1a : ∀ e ∈ events, e.id = eid → keyOf e = none := by
        intro e he hid
        cases hko : keyOf e with
        | none => rfl
        | some k => exact absurd hko (h1 e he hid k)
      have hn1 : lookupA (enrich_all_events false pc0 geoNet llm cache0
          events).lookup eid = none := by
        cases hx : lookupA (enrich_all_events false pc0 geoNet llm cache0
            events).lookup eid with
        | none => rfl
        | some v =>
          obtain ⟨e, he, hid, hkn⟩ := hdom1 eid (by rw [hx]; rfl)
          exact absurd (h1a e he hid) hkn
      have hn2 : lookupA (enrich_all_events false pc0 geoNet llm
          (enrich_all_events false pc0 geoNet llm cache0 events).cache
          events).lookup eid = none := by
        cases hx : lookupA (enrich_all_events false pc0 geoNet llm
            (enrich_all_events false pc0 geoNet llm cache0 events).cache
            events).lookup eid with
        | none => rfl
        | some v =>
          rw [hout2] at hx
          have hx2 : lookupA (enrichPhase1 false pc0 geoNet
              (enrich_all_events false pc0 geoNet llm cache0 events).cache
              events).lookup eid = some v := hx
          obtain ⟨e, he, hid, k, hk, _⟩ := hQ2.lkD eid (by rw [hx2]; rfl)
          rw [h1a e he hid] at hk
          cases hk
      rw [hn1, hn2]

/-- The event of the C7 witness run. -/
def w7ev : NormalizedEvent :=
  { id := "w7", summary := some "Lunch", location_raw := some "Cafe W",
    date := "2024-01-03", duration_minutes := 45 }

/-- The pre-populated cache of the C7 witness run. -/
def w7cache : List (String × CacheRec) :=
  [("Cafe W", { venue_name := some "Cafe W" })]

/-- Witness for the amended C7 claim on a concrete one-event run. -/
theorem c7_second_run_idempotent_witness :
    (enrich_all_events false [] (fun _ => none) (fun _ => [])
      (enrich_all_events false [] (fun _ => none) (fun _ => []) w7cache
        [w7ev]).cache [w7ev]).unique_events = [] ∧
    (enrich_all_events false [] (fun _ => none) (fun _ => [])
      (enrich_all_events false [] (fun _ => none) (fun _ => []) w7cache
        [w7ev]).cache [w7ev]).geoCalls = 0 ∧
    (enrich_all_events false [] (fun _ => none) (fun _ => [])
      (enrich_all_events false [] (fun _ => none) (fun _ => []) w7cache
        [w7ev]).cache [w7ev]).cache =
      (enrich_all_events false [] (fun _ => none) (fun _ => []) w7cache
        [w7ev]).cache ∧
    lookupA (enrich_all_events false [] (fun _ => none) (fun _ => [])
      (enrich_all_events false [] (fun _ => none) (fun _ => []) w7cache
        [w7ev]).cache [w7ev]).lookup "w7" =
      lookupA (enrich_all_events false [] (fun _ => none) (fun _ => [])
        w7cache [w7ev]).lookup "w7" := by
  obtain ⟨h1, h2, h3, h4⟩ := c7_second_run_idempotent [] (fun _ => none)
    (fun _ => []) w7cache [w7ev]
    (by decide)
    (by
      intro e he k hk
      simp only [List.mem_singleton] at he
      subst he
      have h0 : keyOf w7ev = some "Cafe W" := by decide
      rw [h0] at hk
      cases hk
      decide)
    (by intro r hr; simp at hr)
    (by
      have h0 : (enrich_all_events false [] (fun _ => none) (fun _ => [])
          w7cache [w7ev]).unique_events = [] := by decide
      intro it hit
      rw [h0] at hit
      simp at hit)
    (by simp)
  exact ⟨h1, h2, h3, h4 "w7"⟩

end Lifely